import Mathlib

/-!
# SecureArc core, shallow embedding

A verification development for the `securearc-core` crate: the on-disk
format (`format/`), the attempt counter and self-destruct machinery
(`self_destruct/`), and the archive writer and reader (`archive/`).

Byte strings are modelled as `List Nat`; every byte the program produces is
`< 256`.  Machine integers (`u32`, `u64`) are modelled as `Nat`, with an
explicit `% 2 ^ 32` / `% 2 ^ 64` wherever the Rust code truncates.
Serialization follows `bincode` 1.x with its default (legacy) options:
fixed-width little-endian integers, fieldless enum variants encoded as a
`u32` declaration index, `Vec<u8>` and strings length-prefixed with a
`u64`, fixed arrays written raw, `bool` as one byte.
-/

namespace SecureArc

/-- Byte strings: lists of naturals, each `< 256` where produced by the code. -/
abbrev Bytes := List Nat

/-- Little-endian encoding of a `u32` (bincode fixint encoding). -/
def u32le (n : Nat) : Bytes :=
  [n % 256, n / 256 % 256, n / 256 ^ 2 % 256, n / 256 ^ 3 % 256]

/-- Little-endian encoding of a `u64` (bincode fixint encoding). -/
def u64le (n : Nat) : Bytes :=
  [n % 256, n / 256 % 256, n / 256 ^ 2 % 256, n / 256 ^ 3 % 256,
   n / 256 ^ 4 % 256, n / 256 ^ 5 % 256, n / 256 ^ 6 % 256, n / 256 ^ 7 % 256]

/-- Little-endian value of a byte string (`u32::from_le_bytes` and
`u64::from_le_bytes` applied to buffers of the matching size). -/
def leVal : Bytes → Nat
  | [] => 0
  | b :: rest => b + 256 * leVal rest

theorem leVal_u32le (n : Nat) : leVal (u32le n) = n % 2 ^ 32 := by
  simp only [u32le, leVal]
  omega

theorem leVal_u64le (n : Nat) : leVal (u64le n) = n % 2 ^ 64 := by
  simp only [u64le, leVal]
  omega

theorem u32le_length (n : Nat) : (u32le n).length = 4 := rfl

theorem u64le_length (n : Nat) : (u64le n).length = 8 := rfl

/-- Residual-input parser for a fixed number of raw bytes. -/
def parseBytes (n : Nat) (b : Bytes) : Option (Bytes × Bytes) :=
  if n ≤ b.length then some (b.take n, b.drop n) else none

theorem parseBytes_append (x rest : Bytes) :
    parseBytes x.length (x ++ rest) = some (x, rest) := by
  simp [parseBytes, List.take_left, List.drop_left]

theorem parseBytes_of_length (n : Nat) (x rest : Bytes) (h : x.length = n) :
    parseBytes n (x ++ rest) = some (x, rest) := by
  subst h; exact parseBytes_append x rest

/-- Parse a `u32` (4 bytes, little-endian). -/
def parseU32 (b : Bytes) : Option (Nat × Bytes) :=
  match parseBytes 4 b with
  | some (x, rest) => some (leVal x, rest)
  | none => none

/-- Parse a `u64` (8 bytes, little-endian). -/
def parseU64 (b : Bytes) : Option (Nat × Bytes) :=
  match parseBytes 8 b with
  | some (x, rest) => some (leVal x, rest)
  | none => none

/-- Parse a single byte (`u8`). -/
def parseU8 : Bytes → Option (Nat × Bytes)
  | b :: rest => some (b, rest)
  | [] => none

/-- Byte encoding of a `bool` under bincode. -/
def boolByte : Bool → Nat
  | false => 0
  | true => 1

/-- Parse a `bool`; bincode rejects any byte other than 0 or 1. -/
def parseBool : Bytes → Option (Bool × Bytes)
  | 0 :: rest => some (false, rest)
  | 1 :: rest => some (true, rest)
  | _ => none

theorem parseU32_u32le (n : Nat) (h : n < 2 ^ 32) (rest : Bytes) :
    parseU32 (u32le n ++ rest) = some (n, rest) := by
  have h4 : (u32le n).length = 4 := rfl
  simp only [parseU32, ← h4, parseBytes_append, leVal_u32le]
  simp only [Option.some.injEq, Prod.mk.injEq, and_true]
  omega

theorem parseU64_u64le (n : Nat) (h : n < 2 ^ 64) (rest : Bytes) :
    parseU64 (u64le n ++ rest) = some (n, rest) := by
  have h8 : (u64le n).length = 8 := rfl
  simp only [parseU64, ← h8, parseBytes_append, leVal_u64le]
  simp only [Option.some.injEq, Prod.mk.injEq, and_true]
  omega

theorem parseBool_boolByte (b : Bool) (rest : Bytes) :
    parseBool (boolByte b :: rest) = some (b, rest) := by
  cases b <;> rfl

/-! ## Format constants and algorithm enums (`src/format/mod.rs`) -/

/-- Magic number identifying SecureArc files: the 8 bytes of `SECARC01`. -/
def MAGIC_NUMBER : Bytes := [0x53, 0x45, 0x43, 0x41, 0x52, 0x43, 0x30, 0x31]

/-- Minimum allowed max attempts. -/
def MIN_MAX_ATTEMPTS : Nat := 3

/-- Maximum allowed max attempts. -/
def MAX_MAX_ATTEMPTS : Nat := 99

/-- Key derivation function algorithms.  Declaration order matches the Rust
enum; the `repr(u8)` discriminants in the source are `Argon2id = 1`,
`Pbkdf2Sha256 = 2`, but serde/bincode ignores them. -/
inductive KdfAlgorithm
  | Argon2id
  | Pbkdf2Sha256
  deriving DecidableEq, Repr

/-- bincode serializes a fieldless enum variant as its declaration index. -/
def KdfAlgorithm.variantIndex : KdfAlgorithm → Nat
  | .Argon2id => 0
  | .Pbkdf2Sha256 => 1

/-- Encryption algorithms, in Rust declaration order. -/
inductive EncryptionAlgorithm
  | Aes256Gcm
  | ChaCha20Poly1305
  deriving DecidableEq, Repr

def EncryptionAlgorithm.variantIndex : EncryptionAlgorithm → Nat
  | .Aes256Gcm => 0
  | .ChaCha20Poly1305 => 1

/-- Compression algorithms, in Rust declaration order
(`Lzma2`, `Zstd`, `Brotli`, `None`). -/
inductive CompressionAlgorithm
  | Lzma2
  | Zstd
  | Brotli
  | None
  deriving DecidableEq, Repr

def CompressionAlgorithm.variantIndex : CompressionAlgorithm → Nat
  | .Lzma2 => 0
  | .Zstd => 1
  | .Brotli => 2
  | .None => 3

def parseKdfAlgorithm (b : Bytes) : Option (KdfAlgorithm × Bytes) :=
  match parseU32 b with
  | some (0, rest) => some (.Argon2id, rest)
  | some (1, rest) => some (.Pbkdf2Sha256, rest)
  | _ => none

def parseEncryptionAlgorithm (b : Bytes) : Option (EncryptionAlgorithm × Bytes) :=
  match parseU32 b with
  | some (0, rest) => some (.Aes256Gcm, rest)
  | some (1, rest) => some (.ChaCha20Poly1305, rest)
  | _ => none

def parseCompressionAlgorithm (b : Bytes) : Option (CompressionAlgorithm × Bytes) :=
  match parseU32 b with
  | some (0, rest) => some (.Lzma2, rest)
  | some (1, rest) => some (.Zstd, rest)
  | some (2, rest) => some (.Brotli, rest)
  | some (3, rest) => some (.None, rest)
  | _ => none

theorem parseKdfAlgorithm_rt (a : KdfAlgorithm) (rest : Bytes) :
    parseKdfAlgorithm (u32le a.variantIndex ++ rest) = some (a, rest) := by
  have h0 := parseU32_u32le 0 (by norm_num) rest
  have h1 := parseU32_u32le 1 (by norm_num) rest
  cases a <;> simp [parseKdfAlgorithm, KdfAlgorithm.variantIndex, h0, h1]

theorem parseEncryptionAlgorithm_rt (a : EncryptionAlgorithm) (rest : Bytes) :
    parseEncryptionAlgorithm (u32le a.variantIndex ++ rest) = some (a, rest) := by
  have h0 := parseU32_u32le 0 (by norm_num) rest
  have h1 := parseU32_u32le 1 (by norm_num) rest
  cases a <;> simp [parseEncryptionAlgorithm, EncryptionAlgorithm.variantIndex, h0, h1]

theorem parseCompressionAlgorithm_rt (a : CompressionAlgorithm) (rest : Bytes) :
    parseCompressionAlgorithm (u32le a.variantIndex ++ rest) = some (a, rest) := by
  have h0 := parseU32_u32le 0 (by norm_num) rest
  have h1 := parseU32_u32le 1 (by norm_num) rest
  have h2 := parseU32_u32le 2 (by norm_num) rest
  have h3 := parseU32_u32le 3 (by norm_num) rest
  cases a <;>
    simp [parseCompressionAlgorithm, CompressionAlgorithm.variantIndex, h0, h1, h2, h3]

/-! ## Error taxonomy (`src/archive/error.rs`) -/

/-- `SecureArcError`.  Detail payloads are kept where a claim depends on
them; `FileNotFound` carries the path bytes. -/
inductive SecureArcError
  | InvalidPassword
  | MaxAttemptsExceeded
  | ArchiveDestroyed
  | HeaderCorrupted (detail : String)
  | IntegrityCheckFailed (detail : String)
  | FormatError (detail : String)
  | IoError (detail : String)
  | EncryptionError (detail : String)
  | CompressionError (detail : String)
  | KeyDerivationError (detail : String)
  | InvalidConfiguration (detail : String)
  | CounterTamperingDetected
  | KeySlotError (detail : String)
  | FileNotFound (path : Bytes)
  | EmptyArchive
  deriving DecidableEq, Repr

instance {ε α : Type} [DecidableEq ε] [DecidableEq α] :
    DecidableEq (Except ε α) := fun a b =>
  match a, b with
  | .ok x, .ok y =>
    if h : x = y then isTrue (by rw [h]) else isFalse (by simp [h])
  | .error x, .error y =>
    if h : x = y then isTrue (by rw [h]) else isFalse (by simp [h])
  | .ok _, .error _ => isFalse (by simp)
  | .error _, .ok _ => isFalse (by simp)

/-! ## Security header (`src/format/header.rs`) -/

/-- `SecurityHeader`, field for field.  `salt` and `checksum` are 32-byte
arrays in Rust; here lists whose length is 32 wherever the program builds
them. -/
structure SecurityHeader where
  kdf_algorithm : KdfAlgorithm
  kdf_memory : Nat
  kdf_iterations : Nat
  kdf_parallelism : Nat
  encryption_algorithm : EncryptionAlgorithm
  compression_algorithm : CompressionAlgorithm
  salt : Bytes
  attempt_counter : Nat
  max_attempts : Nat
  checksum : Bytes
  destroyed : Bool
  deriving DecidableEq, Repr

/-- bincode serialization of `SecurityHeader` (field order = declaration
order; enums as `u32` variant index, `u32` fields little-endian, fixed
arrays raw, `bool` one byte). -/
def serializeHeader (h : SecurityHeader) : Bytes :=
  u32le h.kdf_algorithm.variantIndex ++ u32le h.kdf_memory ++
  u32le h.kdf_iterations ++ u32le h.kdf_parallelism ++
  u32le h.encryption_algorithm.variantIndex ++
  u32le h.compression_algorithm.variantIndex ++ h.salt ++
  u32le h.attempt_counter ++ u32le h.max_attempts ++ h.checksum ++
  [boolByte h.destroyed]

/-- bincode deserialization of `SecurityHeader` (trailing input allowed, as
with `bincode::deserialize`). -/
def parseHeader (b : Bytes) : Option (SecurityHeader × Bytes) := do
  let (kdf, b) ← parseKdfAlgorithm b
  let (mem, b) ← parseU32 b
  let (iter, b) ← parseU32 b
  let (par, b) ← parseU32 b
  let (enc, b) ← parseEncryptionAlgorithm b
  let (comp, b) ← parseCompressionAlgorithm b
  let (salt, b) ← parseBytes 32 b
  let (ac, b) ← parseU32 b
  let (ma, b) ← parseU32 b
  let (ck, b) ← parseBytes 32 b
  let (dst, b) ← parseBool b
  some ({ kdf_algorithm := kdf, kdf_memory := mem, kdf_iterations := iter,
          kdf_parallelism := par, encryption_algorithm := enc,
          compression_algorithm := comp, salt := salt, attempt_counter := ac,
          max_attempts := ma, checksum := ck, destroyed := dst }, b)

/-- Well-formedness of a header as a Rust value: array fields have their
fixed length and the `u32` fields are in range. -/
def SecurityHeader.WF (h : SecurityHeader) : Prop :=
  h.salt.length = 32 ∧ h.checksum.length = 32 ∧
  h.kdf_memory < 2 ^ 32 ∧ h.kdf_iterations < 2 ^ 32 ∧
  h.kdf_parallelism < 2 ^ 32 ∧ h.attempt_counter < 2 ^ 32 ∧
  h.max_attempts < 2 ^ 32

instance (h : SecurityHeader) : Decidable h.WF := by
  unfold SecurityHeader.WF; infer_instance

theorem serializeHeader_length (h : SecurityHeader)
    (hs : h.salt.length = 32) (hc : h.checksum.length = 32) :
    (serializeHeader h).length = 97 := by
  simp [serializeHeader, hs, hc, u32le]

theorem parseHeader_rt (h : SecurityHeader) (hw : h.WF) (rest : Bytes) :
    parseHeader (serializeHeader h ++ rest) = some (h, rest) := by
  obtain ⟨hs, hc, hm, hi, hp, ha, hx⟩ := hw
  simp only [serializeHeader, parseHeader, List.append_assoc, Option.bind_eq_bind]
  rw [parseKdfAlgorithm_rt]
  simp only [Option.some_bind]
  rw [parseU32_u32le _ hm]
  simp only [Option.some_bind]
  rw [parseU32_u32le _ hi]
  simp only [Option.some_bind]
  rw [parseU32_u32le _ hp]
  simp only [Option.some_bind]
  rw [parseEncryptionAlgorithm_rt]
  simp only [Option.some_bind]
  rw [parseCompressionAlgorithm_rt]
  simp only [Option.some_bind]
  rw [parseBytes_of_length 32 _ _ hs]
  simp only [Option.some_bind]
  rw [parseU32_u32le _ ha]
  simp only [Option.some_bind]
  rw [parseU32_u32le _ hx]
  simp only [Option.some_bind]
  rw [parseBytes_of_length 32 _ _ hc]
  simp only [Option.some_bind, List.cons_append, List.nil_append]
  rw [parseBool_boolByte]
  simp only [Option.some_bind]

/-- `SecurityHeader::new`: the random salt is passed in explicitly (the
source draws it from `thread_rng`). -/
def SecurityHeader.new (max_attempts : Nat) (salt : Bytes) :
    Except SecureArcError SecurityHeader :=
  if max_attempts < MIN_MAX_ATTEMPTS ∨ MAX_MAX_ATTEMPTS < max_attempts then
    .error (.InvalidConfiguration "max_attempts must be between 3 and 99")
  else
    .ok { kdf_algorithm := .Argon2id, kdf_memory := 64 * 1024,
          kdf_iterations := 3, kdf_parallelism := 4,
          encryption_algorithm := .Aes256Gcm, compression_algorithm := .Lzma2,
          salt := salt, attempt_counter := 0, max_attempts := max_attempts,
          checksum := List.replicate 32 0, destroyed := false }

/-- `SecurityHeader::validate`. -/
def SecurityHeader.validate (h : SecurityHeader) : Except SecureArcError Unit :=
  if h.max_attempts < MIN_MAX_ATTEMPTS ∨ MAX_MAX_ATTEMPTS < h.max_attempts then
    .error (.InvalidConfiguration "Invalid max_attempts")
  else if h.max_attempts < h.attempt_counter then .error .ArchiveDestroyed
  else if h.destroyed then .error .ArchiveDestroyed
  else .ok ()

/-- `SecurityHeader::should_destroy`. -/
def SecurityHeader.should_destroy (h : SecurityHeader) : Bool :=
  decide (h.max_attempts ≤ h.attempt_counter) || h.destroyed

/-! ## Key slots (`src/format/keyslot.rs`) -/

structure KeySlot where
  encrypted_key : Bytes
  slot_id : Nat
  active : Bool
  deriving DecidableEq, Repr

instance : Inhabited KeySlot := ⟨⟨[], 0, false⟩⟩

/-- `KeySlot::new`. -/
def KeySlot.new (slot_id : Nat) : KeySlot :=
  { encrypted_key := [], slot_id := slot_id, active := false }

/-- `KeySlot::zeroize`: overwrite `encrypted_key` with random bytes of the
same length (the random stream `r` is passed in; the source uses
`thread_rng().fill_bytes`) and clear `active`. -/
def KeySlot.zeroize (s : KeySlot) (r : Nat → Nat) : KeySlot :=
  { s with
    encrypted_key :=
      if s.encrypted_key.isEmpty then s.encrypted_key
      else (List.range s.encrypted_key.length).map r,
    active := false }

/-- `KeySlot::is_zeroized`. -/
def KeySlot.is_zeroized (s : KeySlot) : Bool :=
  !s.active || s.encrypted_key.isEmpty

/-- bincode serialization of `KeySlot` (`Vec<u8>` gets a `u64` length
prefix; `u8` one byte; `bool` one byte). -/
def serializeKeySlot (s : KeySlot) : Bytes :=
  u64le s.encrypted_key.length ++ s.encrypted_key ++
  [s.slot_id % 256, boolByte s.active]

def parseKeySlot (b : Bytes) : Option (KeySlot × Bytes) := do
  let (klen, b) ← parseU64 b
  let (key, b) ← parseBytes klen b
  let (sid, b) ← parseU8 b
  let (act, b) ← parseBool b
  some ({ encrypted_key := key, slot_id := sid, active := act }, b)

/-- Well-formedness of a key slot as a Rust value. -/
def KeySlot.WF (s : KeySlot) : Prop :=
  s.encrypted_key.length < 2 ^ 64 ∧ s.slot_id < 256

instance (s : KeySlot) : Decidable s.WF := by
  unfold KeySlot.WF; infer_instance

theorem serializeKeySlot_length (s : KeySlot) :
    (serializeKeySlot s).length = s.encrypted_key.length + 10 := by
  simp [serializeKeySlot, u64le]

theorem parseKeySlot_rt (s : KeySlot) (hw : s.WF) (rest : Bytes) :
    parseKeySlot (serializeKeySlot s ++ rest) = some (s, rest) := by
  obtain ⟨hk, hid⟩ := hw
  simp only [serializeKeySlot, parseKeySlot, List.append_assoc,
    Option.bind_eq_bind]
  rw [parseU64_u64le _ hk]
  simp only [Option.some_bind]
  rw [parseBytes_of_length _ _ _ rfl]
  simp only [Option.some_bind, List.cons_append, List.nil_append, parseU8]
  rw [Nat.mod_eq_of_lt hid, parseBool_boolByte]
  simp only [Option.some_bind]

/-! ## Central directory (`src/format/directory.rs`) -/

/-- `FileEntry`.  The `PathBuf` is modelled as its UTF-8 byte encoding. -/
structure FileEntry where
  path : Bytes
  original_size : Nat
  compressed_size : Nat
  encrypted_size : Nat
  modified_time : Nat
  attributes : Nat
  data_offset : Nat
  deriving DecidableEq, Repr

structure CentralDirectory where
  entries : List FileEntry
  encrypted_data : Bytes
  deriving DecidableEq, Repr

/-- `CentralDirectory::new`. -/
def CentralDirectory.new : CentralDirectory := ⟨[], []⟩

/-- `CentralDirectory::add_entry`. -/
def CentralDirectory.add_entry (d : CentralDirectory) (e : FileEntry) :
    CentralDirectory :=
  { d with entries := d.entries ++ [e] }

/-- `CentralDirectory::find_entry`: first entry whose path equals the
argument. -/
def CentralDirectory.find_entry (d : CentralDirectory) (path : Bytes) :
    Option FileEntry :=
  d.entries.find? (fun e => e.path == path)

/-- bincode serialization of `FileEntry` (a `PathBuf` serializes as a
string: `u64` length prefix plus the UTF-8 bytes). -/
def serializeFileEntry (e : FileEntry) : Bytes :=
  u64le e.path.length ++ e.path ++ u64le e.original_size ++
  u64le e.compressed_size ++ u64le e.encrypted_size ++
  u64le e.modified_time ++ u32le e.attributes ++ u64le e.data_offset

def parseFileEntry (b : Bytes) : Option (FileEntry × Bytes) := do
  let (plen, b) ← parseU64 b
  let (path, b) ← parseBytes plen b
  let (osz, b) ← parseU64 b
  let (csz, b) ← parseU64 b
  let (esz, b) ← parseU64 b
  let (mt, b) ← parseU64 b
  let (attr, b) ← parseU32 b
  let (off, b) ← parseU64 b
  some ({ path := path, original_size := osz, compressed_size := csz,
          encrypted_size := esz, modified_time := mt, attributes := attr,
          data_offset := off }, b)

def FileEntry.WF (e : FileEntry) : Prop :=
  e.path.length < 2 ^ 64 ∧ e.original_size < 2 ^ 64 ∧
  e.compressed_size < 2 ^ 64 ∧ e.encrypted_size < 2 ^ 64 ∧
  e.modified_time < 2 ^ 64 ∧ e.attributes < 2 ^ 32 ∧ e.data_offset < 2 ^ 64

instance (e : FileEntry) : Decidable e.WF := by
  unfold FileEntry.WF; infer_instance

theorem parseFileEntry_rt (e : FileEntry) (hw : e.WF) (rest : Bytes) :
    parseFileEntry (serializeFileEntry e ++ rest) = some (e, rest) := by
  obtain ⟨hp, ho, hc, he, hm, ha, hd⟩ := hw
  simp only [serializeFileEntry, parseFileEntry, List.append_assoc,
    Option.bind_eq_bind]
  rw [parseU64_u64le _ hp]
  simp only [Option.some_bind]
  rw [parseBytes_of_length _ _ _ rfl]
  simp only [Option.some_bind]
  rw [parseU64_u64le _ ho]
  simp only [Option.some_bind]
  rw [parseU64_u64le _ hc]
  simp only [Option.some_bind]
  rw [parseU64_u64le _ he]
  simp only [Option.some_bind]
  rw [parseU64_u64le _ hm]
  simp only [Option.some_bind]
  rw [parseU32_u32le _ ha]
  simp only [Option.some_bind]
  rw [parseU64_u64le _ hd]
  simp only [Option.some_bind]

/-- bincode serialization of `Vec<FileEntry>`: `u64` count then the
entries in order. -/
def serializeEntries (l : List FileEntry) : Bytes :=
  (l.map serializeFileEntry).flatten

def parseEntries : Nat → Bytes → Option (List FileEntry × Bytes)
  | 0, b => some ([], b)
  | n + 1, b => do
    let (e, b) ← parseFileEntry b
    let (es, b) ← parseEntries n b
    some (e :: es, b)

theorem parseEntries_rt (l : List FileEntry) (hw : ∀ e ∈ l, e.WF)
    (rest : Bytes) :
    parseEntries l.length (serializeEntries l ++ rest) = some (l, rest) := by
  induction l generalizing rest with
  | nil => simp [parseEntries, serializeEntries]
  | cons e es ih =>
    simp only [serializeEntries, List.map_cons, List.flatten_cons,
      List.length_cons, parseEntries, List.append_assoc, Option.bind_eq_bind]
    rw [parseFileEntry_rt e (hw e (by simp)) _]
    simp only [Option.some_bind]
    rw [show (es.map serializeFileEntry).flatten = serializeEntries es from rfl,
      ih (fun x hx => hw x (by simp [hx]))]
    simp only [Option.some_bind]

/-- bincode serialization of `CentralDirectory`. -/
def serializeDirectory (d : CentralDirectory) : Bytes :=
  u64le d.entries.length ++ serializeEntries d.entries ++
  u64le d.encrypted_data.length ++ d.encrypted_data

def parseDirectory (b : Bytes) : Option (CentralDirectory × Bytes) := do
  let (n, b) ← parseU64 b
  let (es, b) ← parseEntries n b
  let (elen, b) ← parseU64 b
  let (ed, b) ← parseBytes elen b
  some ({ entries := es, encrypted_data := ed }, b)

def CentralDirectory.WF (d : CentralDirectory) : Prop :=
  d.entries.length < 2 ^ 64 ∧ (∀ e ∈ d.entries, e.WF) ∧
  d.encrypted_data.length < 2 ^ 64

theorem parseDirectory_rt (d : CentralDirectory) (hw : d.WF) (rest : Bytes) :
    parseDirectory (serializeDirectory d ++ rest) = some (d, rest) := by
  obtain ⟨hn, he, hd⟩ := hw
  simp only [serializeDirectory, parseDirectory, List.append_assoc,
    Option.bind_eq_bind]
  rw [parseU64_u64le _ hn]
  simp only [Option.some_bind]
  rw [parseEntries_rt _ he]
  simp only [Option.some_bind]
  rw [parseU64_u64le _ hd]
  simp only [Option.some_bind]
  rw [parseBytes_of_length _ _ _ rfl]
  simp only [Option.some_bind]

/-! ## Cryptographic and compression primitives -/

/-- Modelled from the spec: the cryptographic and compression backends
(Argon2id, PBKDF2-HMAC-SHA256, HMAC-SHA256, the AES-256-GCM and
ChaCha20-Poly1305 AEADs, LZMA2, Zstd and Brotli) live in external crates,
not in this repository; only their call sites are in `src/`.  They are
modelled as an abstract record of deterministic functions.  AEAD
encryption, which the source randomizes with a fresh nonce per call, is
modelled as an arbitrary function of algorithm, key and plaintext whose
output is the nonce followed by ciphertext-plus-tag (the nonce choice is
folded into the function); AEAD decryption takes algorithm, key, nonce and
ciphertext-plus-tag and may fail. -/
structure Prims where
  argon2id : Bytes → Bytes → Nat → Nat → Nat → Except String Bytes
  pbkdf2Sha256 : Bytes → Bytes → Nat → Bytes
  hmacSha256 : Bytes → Bytes → Bytes
  aeadOpen : EncryptionAlgorithm → Bytes → Bytes → Bytes → Option Bytes
  aeadEncrypt : EncryptionAlgorithm → Bytes → Bytes → Bytes
  codecCompress : CompressionAlgorithm → Bytes → Except String Bytes
  codecDecompress : CompressionAlgorithm → Bytes → Except String Bytes

/-- `KdfParams` (`src/crypto/kdf.rs`). -/
structure KdfParams where
  algorithm : KdfAlgorithm
  memory : Nat
  iterations : Nat
  parallelism : Nat
  deriving DecidableEq, Repr

/-- `KdfParams::default`. -/
def KdfParams.default : KdfParams :=
  { algorithm := .Argon2id, memory := 64 * 1024, iterations := 3,
    parallelism := 4 }

/-- `derive_key` (`src/crypto/kdf.rs`): parameter validation from the
source, then the abstract backend. -/
def derive_key (P : Prims) (password salt : Bytes) (params : KdfParams) :
    Except SecureArcError Bytes :=
  match params.algorithm with
  | .Argon2id =>
    if params.memory < 8 * 1024 then
      .error (.InvalidConfiguration "Argon2 memory must be at least 8 MB")
    else if params.iterations < 1 then
      .error (.InvalidConfiguration "Argon2 iterations must be at least 1")
    else if params.parallelism < 1 ∨ 16 < params.parallelism then
      .error (.InvalidConfiguration "Argon2 parallelism must be between 1 and 16")
    else
      match P.argon2id password salt params.memory params.iterations
          params.parallelism with
      | .ok k => .ok k
      | .error e => .error (.KeyDerivationError ("Argon2 key derivation failed: " ++ e))
  | .Pbkdf2Sha256 =>
    if params.iterations < 1000 then
      .error (.InvalidConfiguration "PBKDF2 iterations must be at least 1000")
    else .ok (P.pbkdf2Sha256 password salt params.iterations)

/-- `EncryptionKey::from_bytes` (`src/crypto/encryption.rs`): keys must be
exactly 32 bytes. -/
def EncryptionKey.from_bytes (b : Bytes) : Except SecureArcError Bytes :=
  if b.length = 32 then .ok b
  else .error (.InvalidConfiguration "Key must be 32 bytes")

/-- `IntegrityKey::from_bytes` (`src/crypto/integrity.rs`). -/
def IntegrityKey.from_bytes (b : Bytes) : Except SecureArcError Bytes :=
  if b.length = 32 then .ok b
  else .error (.InvalidConfiguration "Integrity key must be 32 bytes")

/-- `compute_checksum` (`src/crypto/integrity.rs`): HMAC-SHA256 of the
data under the key. -/
def compute_checksum (P : Prims) (data key : Bytes) : Bytes :=
  P.hmacSha256 key data

/-- `encrypt_data` (`src/crypto/encryption.rs`): the source draws a random
12-byte nonce, seals with the AEAD, and returns nonce plus
ciphertext-plus-tag; the whole randomized pipeline is the abstract
`aeadEncrypt`. -/
def encrypt_data (P : Prims) (data key : Bytes)
    (algorithm : EncryptionAlgorithm) : Bytes :=
  P.aeadEncrypt algorithm key data

/-- `decrypt_data` (`src/crypto/encryption.rs`): split off the 12-byte
nonce, open with the AEAD; every failure is reported as
`EncryptionError`. -/
def decrypt_data (P : Prims) (encrypted_data key : Bytes)
    (algorithm : EncryptionAlgorithm) : Except SecureArcError Bytes :=
  match algorithm with
  | .Aes256Gcm =>
    if encrypted_data.length < 12 + 16 then
      .error (.EncryptionError "Encrypted data too short")
    else
      match P.aeadOpen .Aes256Gcm key (encrypted_data.take 12)
          (encrypted_data.drop 12) with
      | some pt => .ok pt
      | none => .error (.EncryptionError "Decryption failed")
  | .ChaCha20Poly1305 =>
    if encrypted_data.length < 12 then
      .error (.EncryptionError "Encrypted data too short")
    else
      match P.aeadOpen .ChaCha20Poly1305 key (encrypted_data.take 12)
          (encrypted_data.drop 12) with
      | some pt => .ok pt
      | none => .error (.EncryptionError "Decryption failed")

/-- Every failure of `decrypt_data` is an `EncryptionError`. -/
theorem decrypt_data_error_kind (P : Prims) (c k : Bytes)
    (a : EncryptionAlgorithm) (e : SecureArcError)
    (h : decrypt_data P c k a = .error e) :
    ∃ s, e = SecureArcError.EncryptionError s := by
  unfold decrypt_data at h
  cases a <;> simp only at h
  all_goals
    split at h
    · injection h with h1
      exact ⟨_, h1.symm⟩
    · split at h
      · exact absurd h (by simp)
      · injection h with h1
        exact ⟨_, h1.symm⟩

/-- `compress_data` (`src/compression/algorithms.rs`). -/
def compress_data (P : Prims) (data : Bytes)
    (algorithm : CompressionAlgorithm) : Except SecureArcError Bytes :=
  match algorithm with
  | .None => .ok data
  | .Lzma2 =>
    match P.codecCompress .Lzma2 data with
    | .ok out => .ok out
    | .error e => .error (.CompressionError ("LZMA2 compression failed: " ++ e))
  | .Zstd =>
    match P.codecCompress .Zstd data with
    | .ok out => .ok out
    | .error e => .error (.CompressionError ("Zstd compression failed: " ++ e))
  | .Brotli =>
    match P.codecCompress .Brotli data with
    | .ok out => .ok out
    | .error e => .error (.CompressionError ("Brotli compression failed: " ++ e))

/-- `decompress_data` (`src/compression/algorithms.rs`). -/
def decompress_data (P : Prims) (compressed_data : Bytes)
    (algorithm : CompressionAlgorithm) : Except SecureArcError Bytes :=
  match algorithm with
  | .None => .ok compressed_data
  | .Lzma2 =>
    match P.codecDecompress .Lzma2 compressed_data with
    | .ok out => .ok out
    | .error e => .error (.CompressionError ("LZMA2 decompression failed: " ++ e))
  | .Zstd =>
    match P.codecDecompress .Zstd compressed_data with
    | .ok out => .ok out
    | .error e => .error (.CompressionError ("Zstd decompression failed: " ++ e))
  | .Brotli =>
    match P.codecDecompress .Brotli compressed_data with
    | .ok out => .ok out
    | .error e => .error (.CompressionError ("Brotli decompression failed: " ++ e))

/-- Every failure of `decompress_data` is a `CompressionError`. -/
theorem decompress_data_error_kind (P : Prims) (c : Bytes)
    (a : CompressionAlgorithm) (e : SecureArcError)
    (h : decompress_data P c a = .error e) :
    ∃ s, e = SecureArcError.CompressionError s := by
  unfold decompress_data at h
  cases a <;> simp only at h
  case None => exact absurd h (by simp)
  all_goals
    split at h
    next heq => exact absurd h (by simp)
    next heq =>
      injection h with h1
      exact ⟨_, h1.symm⟩

/-! ## Attempt counter (`src/self_destruct/counter.rs`) -/

/-- `AttemptCounter`: holds the integrity key for HMAC computation. -/
structure AttemptCounter where
  integrity_key : Bytes

/-- `serialize_header_for_hmac`: serialize the header with the checksum
field zeroed. -/
def serialize_header_for_hmac (header : SecurityHeader) : Bytes :=
  serializeHeader { header with checksum := List.replicate 32 0 }

/-- `AttemptCounter::update_checksum`.  In Rust this returns `Result`, but
the only failure is a bincode serialization error, which cannot occur for
`SecurityHeader`; the model is total. -/
def AttemptCounter.update_checksum (P : Prims) (c : AttemptCounter)
    (header : SecurityHeader) : SecurityHeader :=
  { header with
    checksum := compute_checksum P (serialize_header_for_hmac header)
      c.integrity_key }

/-- `AttemptCounter::verify_checksum`. -/
def AttemptCounter.verify_checksum (P : Prims) (c : AttemptCounter)
    (header : SecurityHeader) : Except SecureArcError Unit :=
  if compute_checksum P (serialize_header_for_hmac header) c.integrity_key
      = header.checksum then .ok ()
  else .error .CounterTamperingDetected

/-- `AttemptCounter::increment`, in state-passing form: the Rust function
mutates `&mut SecurityHeader` and returns `Result<(), _>`; here it returns
the result together with the header, which on the error path is the
untouched input. -/
def AttemptCounter.increment (P : Prims) (c : AttemptCounter)
    (header : SecurityHeader) :
    Except SecureArcError Unit × SecurityHeader :=
  if header.should_destroy then (.error .ArchiveDestroyed, header)
  else
    let h1 := { header with attempt_counter := header.attempt_counter + 1 }
    (.ok (), c.update_checksum P h1)

/-- `AttemptCounter::get_attempts`. -/
def AttemptCounter.get_attempts (_c : AttemptCounter)
    (header : SecurityHeader) : Nat :=
  header.attempt_counter

/-- `AttemptCounter::get_remaining_attempts`. -/
def AttemptCounter.get_remaining_attempts (_c : AttemptCounter)
    (header : SecurityHeader) : Nat :=
  if header.max_attempts ≤ header.attempt_counter then 0
  else header.max_attempts - header.attempt_counter

/-- `AttemptCounter::should_destroy`. -/
def AttemptCounter.should_destroy (_c : AttemptCounter)
    (header : SecurityHeader) : Bool :=
  header.should_destroy

/-! ## Self-destruct (`src/self_destruct/destruction.rs`) -/

/-- The random values `SelfDestruct::execute_destruction` draws from
`thread_rng`, passed in explicitly: a byte stream per key slot, 32 salt
bytes, three `u32` values, and 32 checksum bytes. -/
structure DestructRandomness where
  slotBytes : Nat → Nat → Nat
  saltBytes : Nat → Nat
  kdfMemory : Nat
  kdfIterations : Nat
  kdfParallelism : Nat
  checksumBytes : Nat → Nat

/-- `SelfDestruct::execute_destruction`: zeroize every slot, randomize the
header salt and KDF parameters, set `destroyed`, randomize the checksum.
The Rust function returns `Result` but never fails; the model is total. -/
def SelfDestruct.execute_destruction (r : DestructRandomness)
    (header : SecurityHeader) (key_slots : List KeySlot) :
    SecurityHeader × List KeySlot :=
  let slots := key_slots.mapIdx (fun i s => s.zeroize (r.slotBytes i))
  let header := { header with
    salt := (List.range 32).map r.saltBytes,
    kdf_memory := r.kdfMemory % 2 ^ 32,
    kdf_iterations := r.kdfIterations % 2 ^ 32,
    kdf_parallelism := r.kdfParallelism % 2 ^ 32,
    destroyed := true,
    checksum := (List.range 32).map r.checksumBytes }
  (header, slots)

/-- `SelfDestruct::is_destroyed`. -/
def SelfDestruct.is_destroyed (header : SecurityHeader) : Bool :=
  header.destroyed || header.should_destroy

/-- `SelfDestruct::are_key_slots_destroyed`. -/
def SelfDestruct.are_key_slots_destroyed (key_slots : List KeySlot) : Bool :=
  key_slots.all (fun s => s.is_zeroized)

theorem zeroize_encrypted_key (s : KeySlot) (r : Nat → Nat) :
    (s.zeroize r).encrypted_key = (List.range s.encrypted_key.length).map r := by
  unfold KeySlot.zeroize
  by_cases h : s.encrypted_key.isEmpty
  · have : s.encrypted_key = [] := List.isEmpty_iff.mp h
    simp [h, this]
  · simp [h]

theorem zeroize_length (s : KeySlot) (r : Nat → Nat) :
    (s.zeroize r).encrypted_key.length = s.encrypted_key.length := by
  rw [zeroize_encrypted_key]; simp

/-! ## Archive reader (`src/archive/reader.rs`)

The file is modelled as its byte string.  `read_exact` at an explicit
offset models the source's sequential reads and seeks (the source threads
the running offset the same way); `writeAt` models a positioned
`write_all`. -/

/-- `Read::read_exact` of `n` bytes at offset `off`: fails with an I/O
error when the file is too short. -/
def read_exact (f : Bytes) (off n : Nat) : Except SecureArcError Bytes :=
  if off + n ≤ f.length then .ok ((f.drop off).take n)
  else .error (.IoError "failed to fill whole buffer")

/-- Positioned overwrite of a file region (seek + `write_all`). -/
def writeAt (f : Bytes) (off : Nat) (d : Bytes) : Bytes :=
  f.take off ++ d ++ f.drop (off + d.length)

/-- `ArchiveReader`.  The open file handle is the byte string
`fileBytes`; the cursor position is irrelevant to the claims (every access
in the source seeks first or continues a tracked sequential position). -/
structure ArchiveReader where
  fileBytes : Bytes
  header : SecurityHeader
  key_slots : List KeySlot
  directory : CentralDirectory
  master_key : Option Bytes
  encryption_algorithm : EncryptionAlgorithm
  compression_algorithm : CompressionAlgorithm
  directory_offset : Nat
  payload_offset : Nat

/-- The key-slot reading loop of `ArchiveReader::open`: for each slot read
a `u32` size then that many bytes and deserialize them; returns the slots
and the offset after the table. -/
def readKeySlots (f : Bytes) : Nat → Nat →
    Except SecureArcError (List KeySlot × Nat)
  | 0, off => .ok ([], off)
  | count + 1, off =>
    match read_exact f off 4 with
    | .error e => .error e
    | .ok sizeB =>
      let slot_size := leVal sizeB
      match read_exact f (off + 4) slot_size with
      | .error e => .error e
      | .ok slot_data =>
        match parseKeySlot slot_data with
        | none => .error (.KeySlotError "Failed to deserialize key slot")
        | some (slot, _) =>
          match readKeySlots f count (off + 4 + slot_size) with
          | .error e => .error e
          | .ok (slots, off2) => .ok (slot :: slots, off2)

/-- `ArchiveReader::open`. -/
def openArchive (f : Bytes) : Except SecureArcError ArchiveReader :=
  match read_exact f 0 8 with
  | .error e => .error e
  | .ok magic =>
    if magic ≠ MAGIC_NUMBER then .error (.FormatError "Invalid magic number")
    else
      match read_exact f 8 4 with
      | .error e => .error e
      | .ok hsizeB =>
        match read_exact f 12 (leVal hsizeB) with
        | .error e => .error e
        | .ok header_data =>
          match parseHeader header_data with
          | none => .error (.HeaderCorrupted "Failed to deserialize header")
          | some (header, _) =>
            match header.validate with
            | .error e => .error e
            | .ok _ =>
              if SelfDestruct.is_destroyed header then
                .error .ArchiveDestroyed
              else
                match read_exact f (8 + (4 + leVal hsizeB)) 4 with
                | .error e => .error e
                | .ok scB =>
                  match readKeySlots f (leVal scB)
                      (8 + (4 + leVal hsizeB) + 4) with
                  | .error e => .error e
                  | .ok (key_slots, directory_offset) =>
                    match read_exact f directory_offset 8 with
                    | .error e => .error e
                    | .ok dsB =>
                      match read_exact f (directory_offset + 8)
                          (leVal dsB) with
                      | .error e => .error e
                      | .ok _encrypted_directory =>
                        .ok { fileBytes := f, header := header,
                              key_slots := key_slots,
                              directory := CentralDirectory.new,
                              master_key := none,
                              encryption_algorithm :=
                                header.encryption_algorithm,
                              compression_algorithm :=
                                header.compression_algorithm,
                              directory_offset := directory_offset,
                              payload_offset :=
                                directory_offset + 8 + leVal dsB + 8 }

/-- The serialized key-slot table: slot count (`u32`), then each slot's
serialized bytes behind a `u32` size prefix.  Written identically by
`ArchiveWriter::write_to_file` and `ArchiveReader::update_file`. -/
def slotsBlockOf (slots : List KeySlot) : Bytes :=
  u32le slots.length ++
    (slots.map (fun s =>
      let d := serializeKeySlot s
      u32le d.length ++ d)).flatten

/-- `ArchiveReader::update_file`: write the serialized header (with its
`u32` size prefix) at offset 8, then the slot count and serialized slots
(each with a `u32` size prefix) right after the header. -/
def ArchiveReader.update_file (self : ArchiveReader) : ArchiveReader :=
  let header_data := serializeHeader self.header
  let f1 := writeAt self.fileBytes 8 (u32le header_data.length ++ header_data)
  let f2 := writeAt f1 (8 + 4 + header_data.length)
    (slotsBlockOf self.key_slots)
  { self with fileBytes := f2 }

/-- The failed-attempt commit in `ArchiveReader::unlock`: increment the
counter, destroy and persist when the counter has reached the maximum,
otherwise persist and report `InvalidPassword`.  The source inlines this
block twice (HMAC failure and bad slot plaintext) with identical text. -/
def ArchiveReader.commitFailedAttempt (P : Prims) (r : DestructRandomness)
    (self : ArchiveReader) (counter : AttemptCounter) :
    Except SecureArcError Unit × ArchiveReader :=
  match counter.increment P self.header with
  | (.error e, h1) => (.error e, { self with header := h1 })
  | (.ok _, h1) =>
    let self1 := { self with header := h1 }
    if counter.should_destroy self1.header then
      let hs2 := SelfDestruct.execute_destruction r self1.header
        self1.key_slots
      let self2 := { self1 with header := hs2.1, key_slots := hs2.2 }
      (.error .MaxAttemptsExceeded, self2.update_file)
    else
      (.error .InvalidPassword, self1.update_file)

/-- The KDF parameters taken from a header in `ArchiveReader::unlock`. -/
def kdfParamsOfHeader (h : SecurityHeader) : KdfParams :=
  { algorithm := h.kdf_algorithm, memory := h.kdf_memory,
    iterations := h.kdf_iterations, parallelism := h.kdf_parallelism }

/-- The integrity salt: header salt with byte 0 XORed with `0xFF`. -/
def xorFirstByte : Bytes → Bytes
  | [] => []
  | b :: rest => (b ^^^ 255) :: rest

/-- The directory-decryption tail of `ArchiveReader::unlock` after the
master key has been stored (`self.master_key = Some(..)` at entry). -/
def ArchiveReader.unlockDirectory (P : Prims) (selfk : ArchiveReader)
    (master_key_data : Bytes) :
    Except SecureArcError Unit × ArchiveReader :=
  match EncryptionKey.from_bytes master_key_data with
  | .error e => (.error e, selfk)
  | .ok mek =>
    match read_exact selfk.fileBytes selfk.directory_offset 8 with
    | .error e => (.error e, selfk)
    | .ok dsB =>
      match read_exact selfk.fileBytes
          (selfk.directory_offset + 8) (leVal dsB) with
      | .error e => (.error e, selfk)
      | .ok encdir =>
        match decrypt_data P encdir mek selfk.encryption_algorithm with
        | .error e => (.error e, selfk)
        | .ok dirdata =>
          match parseDirectory dirdata with
          | none =>
            (.error (.FormatError "Failed to deserialize directory"), selfk)
          | some (dir, _) => (.ok (), { selfk with directory := dir })

/-- Steps 4–6 of `ArchiveReader::unlock`, entered once the header HMAC has
verified: derive the wrapping key, decrypt slot 0, check the plaintext
length, store the master key and decrypt the directory. -/
def ArchiveReader.unlockVerified (P : Prims) (r : DestructRandomness)
    (self : ArchiveReader) (password : Bytes) (counter : AttemptCounter) :
    Except SecureArcError Unit × ArchiveReader :=
  match derive_key P password self.header.salt
      (kdfParamsOfHeader self.header) with
  | .error e => (.error e, self)
  | .ok dk =>
    match EncryptionKey.from_bytes dk with
    | .error e => (.error e, self)
    | .ok ek =>
      match decrypt_data P self.key_slots.headI.encrypted_key ek
          self.encryption_algorithm with
      | .error _ => (.error .InvalidPassword, self)
      | .ok master_key_data =>
        if master_key_data.length ≠ 32 then
          self.commitFailedAttempt P r counter
        else
          ArchiveReader.unlockDirectory P
            { self with master_key := some master_key_data } master_key_data

/-- `ArchiveReader::unlock`, in state-passing form (`&mut self` becomes an
explicit result state).  `r` supplies the randomness a destruction would
use.  The source indexes `self.key_slots[0]`, which panics on an empty
slot table; the model reads the first slot with `headI` (claims about
`unlock` assume a nonempty slot table, which `open` on a writer-produced
file guarantees). -/
def ArchiveReader.unlock (P : Prims) (r : DestructRandomness)
    (self : ArchiveReader) (password : Bytes) :
    Except SecureArcError Unit × ArchiveReader :=
  if SelfDestruct.is_destroyed self.header then
    (.error .ArchiveDestroyed, self)
  else
    match derive_key P password (xorFirstByte self.header.salt)
        (kdfParamsOfHeader self.header) with
    | .error e => (.error e, self)
    | .ok ikb =>
      match IntegrityKey.from_bytes ikb with
      | .error e => (.error e, self)
      | .ok ik =>
        match AttemptCounter.verify_checksum P ⟨ik⟩ self.header with
        | .error _ => self.commitFailedAttempt P r ⟨ik⟩
        | .ok _ => self.unlockVerified P r password ⟨ik⟩

/-- `ArchiveReader::list_files`. -/
def ArchiveReader.list_files (self : ArchiveReader) :
    Except SecureArcError (List Bytes) :=
  match self.master_key with
  | none => .error (.InvalidConfiguration "Archive must be unlocked first")
  | some _ => .ok (self.directory.entries.map (fun e => e.path))

/-- `ArchiveReader::extract_file`, returning the bytes that would be
written to the output path.  The source's `&mut self` only moves the read
cursor; the state is returned unchanged in every branch.  (The source also
maps `self.compression_algorithm` through an identity `match` between the
two imports of the same enum.) -/
def ArchiveReader.extract_file (P : Prims) (self : ArchiveReader)
    (archive_path : Bytes) :
    Except SecureArcError Bytes × ArchiveReader :=
  match self.master_key with
  | none =>
    (.error (.InvalidConfiguration "Archive must be unlocked first"), self)
  | some master_key =>
    match self.directory.find_entry archive_path with
    | none => (.error (.FileNotFound archive_path), self)
    | some entry =>
      match read_exact self.fileBytes
          (self.payload_offset + entry.data_offset) entry.encrypted_size with
      | .error e => (.error e, self)
      | .ok encrypted_data =>
        match EncryptionKey.from_bytes master_key with
        | .error e => (.error e, self)
        | .ok ek =>
          match decrypt_data P encrypted_data ek
              self.encryption_algorithm with
          | .error e => (.error e, self)
          | .ok compressed_data =>
            match decompress_data P compressed_data
                self.compression_algorithm with
            | .error e => (.error e, self)
            | .ok file_data => (.ok file_data, self)

/-- `ArchiveInfo`. -/
structure ArchiveInfo where
  max_attempts : Nat
  current_attempts : Nat
  remaining_attempts : Nat
  destroyed : Bool
  file_count : Nat
  deriving DecidableEq, Repr

/-- `ArchiveReader::get_info` (`saturating_sub` is `Nat` subtraction). -/
def ArchiveReader.get_info (self : ArchiveReader) : ArchiveInfo :=
  { max_attempts := self.header.max_attempts,
    current_attempts := self.header.attempt_counter,
    remaining_attempts := self.header.max_attempts - self.header.attempt_counter,
    destroyed := self.header.destroyed,
    file_count := self.directory.entries.length }

/-! ## Archive writer (`src/archive/writer.rs`) -/

/-- `ArchiveConfig`. -/
structure ArchiveConfig where
  max_attempts : Nat
  encryption_algorithm : EncryptionAlgorithm
  compression_algorithm : CompressionAlgorithm
  kdf_params : KdfParams
  deriving DecidableEq, Repr

/-- `ArchiveConfig::default`. -/
def ArchiveConfig.default : ArchiveConfig :=
  { max_attempts := 5, encryption_algorithm := .Aes256Gcm,
    compression_algorithm := .Lzma2, kdf_params := KdfParams.default }

/-- `ArchiveWriter`. -/
structure ArchiveWriter where
  config : ArchiveConfig
  master_key : Bytes
  directory : CentralDirectory
  payload : Bytes

/-- `ArchiveWriter::new`: the random 32-byte master key is passed in
explicitly (the source draws it from `thread_rng`). -/
def ArchiveWriter.new (config : ArchiveConfig) (master_key : Bytes) :
    ArchiveWriter :=
  { config := config, master_key := master_key,
    directory := CentralDirectory.new, payload := [] }

/-- An input to `ArchiveWriter::add_file`: the file's bytes, its archive
path (UTF-8 bytes), and its modification time. -/
structure InputFile where
  content : Bytes
  archive_path : Bytes
  modified_time : Nat
  deriving DecidableEq, Repr

/-- `ArchiveWriter::add_file`: compress, encrypt under the master key,
record a `FileEntry`, append the ciphertext to the payload. -/
def ArchiveWriter.add_file (P : Prims) (w : ArchiveWriter)
    (file : InputFile) : Except SecureArcError ArchiveWriter :=
  match compress_data P file.content w.config.compression_algorithm with
  | .error e => .error e
  | .ok compressed_data =>
    match EncryptionKey.from_bytes w.master_key with
    | .error e => .error e
    | .ok ek =>
      let encrypted_data :=
        encrypt_data P compressed_data ek w.config.encryption_algorithm
      let entry : FileEntry :=
        { path := file.archive_path,
          original_size := file.content.length,
          compressed_size := compressed_data.length,
          encrypted_size := encrypted_data.length,
          modified_time := file.modified_time,
          attributes := 0,
          data_offset := w.payload.length }
      .ok { w with payload := w.payload ++ encrypted_data,
                   directory := w.directory.add_entry entry }

/-- `ArchiveWriter::write_to_file`, producing the output file's bytes.
The fresh 32-byte header salt is passed in explicitly. -/
def ArchiveWriter.write_to_file (P : Prims) (w : ArchiveWriter)
    (password salt : Bytes) : Except SecureArcError Bytes :=
  match SecurityHeader.new w.config.max_attempts salt with
  | .error e => .error e
  | .ok h0 =>
    let header := { h0 with
      kdf_algorithm := w.config.kdf_params.algorithm,
      kdf_memory := w.config.kdf_params.memory,
      kdf_iterations := w.config.kdf_params.iterations,
      kdf_parallelism := w.config.kdf_params.parallelism,
      encryption_algorithm := w.config.encryption_algorithm,
      compression_algorithm := w.config.compression_algorithm }
    match derive_key P password header.salt w.config.kdf_params with
    | .error e => .error e
    | .ok derived_key =>
      let integrity_salt := xorFirstByte header.salt
      match derive_key P password integrity_salt w.config.kdf_params with
      | .error e => .error e
      | .ok ikb =>
        match IntegrityKey.from_bytes ikb with
        | .error e => .error e
        | .ok integrity_key =>
          match EncryptionKey.from_bytes derived_key with
          | .error e => .error e
          | .ok ek =>
            let master_key_encrypted :=
              encrypt_data P w.master_key ek w.config.encryption_algorithm
            let primary_slot : KeySlot :=
              { encrypted_key := master_key_encrypted, slot_id := 0,
                active := true }
            let key_slots := [primary_slot]
            let header := { header with
              checksum := compute_checksum P
                (serialize_header_for_hmac header) integrity_key }
            let header_data := serializeHeader header
            match EncryptionKey.from_bytes w.master_key with
            | .error e => .error e
            | .ok mek =>
              let directory_data := serializeDirectory w.directory
              let encrypted_directory :=
                encrypt_data P directory_data mek
                  w.config.encryption_algorithm
              .ok (MAGIC_NUMBER ++ u32le header_data.length ++ header_data ++
                slotsBlockOf key_slots ++
                u64le encrypted_directory.length ++ encrypted_directory ++
                u64le w.payload.length ++ w.payload)

/-- `add_file` folded over a list of inputs. -/
def ArchiveWriter.add_files (P : Prims) (w : ArchiveWriter) :
    List InputFile → Except SecureArcError ArchiveWriter
  | [] => .ok w
  | f :: fs =>
    match w.add_file P f with
    | .error e => .error e
    | .ok w1 => w1.add_files P fs

/-! ## Concrete primitives and fixtures for evaluation -/

/-- A concrete instantiation of the abstract backends, used to evaluate
the development on closed inputs: encryption prepends a 12-byte zero
nonce and appends a 16-byte zero tag, decryption strips them, the KDFs
and the MAC return all-zero 32-byte outputs, the codecs are the
identity. -/
def idPrims : Prims where
  argon2id := fun _ _ _ _ _ => .ok (List.replicate 32 0)
  pbkdf2Sha256 := fun _ _ _ => List.replicate 32 0
  hmacSha256 := fun _ _ => List.replicate 32 0
  aeadOpen := fun _ _ _ ct => some (ct.take (ct.length - 16))
  aeadEncrypt := fun _ _ pt => List.replicate 12 0 ++ pt ++ List.replicate 16 0
  codecCompress := fun _ d => .ok d
  codecDecompress := fun _ d => .ok d

theorem idPrims_decrypt_encrypt (pt key : Bytes) (a : EncryptionAlgorithm) :
    decrypt_data idPrims (encrypt_data idPrims pt key a) key a = .ok pt := by
  have hct : encrypt_data idPrims pt key a
      = List.replicate 12 0 ++ (pt ++ List.replicate 16 0) := by
    simp [encrypt_data, idPrims]
  have hlen : (encrypt_data idPrims pt key a).length = pt.length + 28 := by
    rw [hct]
    simp only [List.length_append, List.length_replicate]
    omega
  have hdrop : (encrypt_data idPrims pt key a).drop 12
      = pt ++ List.replicate 16 0 := by
    rw [hct, List.drop_left' (by simp)]
  have hproj : ∀ (k' n ct : Bytes), idPrims.aeadOpen a k' n ct
      = some (ct.take (ct.length - 16)) := fun _ _ _ => rfl
  have hopen : idPrims.aeadOpen a key ((encrypt_data idPrims pt key a).take 12)
      ((encrypt_data idPrims pt key a).drop 12) = some pt := by
    rw [hdrop, hproj]
    have hl : (pt ++ List.replicate 16 0).length - 16 = pt.length := by
      simp
    rw [hl, List.take_left]
  cases a <;>
    simp [decrypt_data, hlen, hopen]

theorem idPrims_codec (d c : Bytes) (a : CompressionAlgorithm)
    (h : compress_data idPrims d a = .ok c) :
    decompress_data idPrims c a = .ok d := by
  cases a <;> simp [compress_data, idPrims] at h <;>
    simp [decompress_data, idPrims, ← h]

/-- Randomness source with all-zero output, for evaluation. -/
def rngZero : DestructRandomness :=
  { slotBytes := fun _ _ => 0, saltBytes := fun _ => 0, kdfMemory := 0,
    kdfIterations := 0, kdfParallelism := 0, checksumBytes := fun _ => 0 }

/-- A live header fixture: default algorithms, zero salt and checksum,
counter 0, `max_attempts` 3. -/
def headerLiveX : SecurityHeader :=
  { kdf_algorithm := .Argon2id, kdf_memory := 65536, kdf_iterations := 3,
    kdf_parallelism := 4, encryption_algorithm := .Aes256Gcm,
    compression_algorithm := .Lzma2, salt := List.replicate 32 0,
    attempt_counter := 0, max_attempts := 3,
    checksum := List.replicate 32 0, destroyed := false }

/-- A destroyed header fixture. -/
def headerDeadX : SecurityHeader := { headerLiveX with destroyed := true }

/-- Refreshing the checksum makes `verify_checksum` succeed under the same
key: the HMAC input zeroes the checksum field, so it agrees before and
after the checksum is stored. -/
theorem verify_update_checksum (P : Prims) (c : AttemptCounter)
    (h : SecurityHeader) :
    c.verify_checksum P (c.update_checksum P h) = .ok () := by
  have hs : serialize_header_for_hmac (c.update_checksum P h)
      = serialize_header_for_hmac h := rfl
  have hc : (c.update_checksum P h).checksum
      = compute_checksum P (serialize_header_for_hmac h) c.integrity_key := rfl
  unfold AttemptCounter.verify_checksum
  rw [hs, hc, if_pos rfl]

/-! ## C6: `AttemptCounter::increment` -/

/-- C6: on a live header strictly below the limit, `increment` adds
exactly one to the counter and refreshes the checksum so that
`verify_checksum` succeeds under the same integrity key; on a destroyed
header, or one at or over the limit, it fails with `ArchiveDestroyed`,
leaving the header unchanged. -/
theorem increment_spec (P : Prims) (k : Bytes) (h : SecurityHeader) :
    (h.destroyed = false ∧ h.attempt_counter < h.max_attempts →
      (AttemptCounter.increment P ⟨k⟩ h).1 = .ok () ∧
      (AttemptCounter.increment P ⟨k⟩ h).2.attempt_counter
        = h.attempt_counter + 1 ∧
      AttemptCounter.verify_checksum P ⟨k⟩
        (AttemptCounter.increment P ⟨k⟩ h).2 = .ok ()) ∧
    (h.destroyed = true ∨ h.max_attempts ≤ h.attempt_counter →
      AttemptCounter.increment P ⟨k⟩ h = (.error .ArchiveDestroyed, h)) := by
  constructor
  · rintro ⟨hd, hc⟩
    have hsd : h.should_destroy = false := by
      simp [SecurityHeader.should_destroy, hd]; omega
    refine ⟨?_, ?_, ?_⟩
    · simp [AttemptCounter.increment, hsd]
    · simp [AttemptCounter.increment, hsd, AttemptCounter.update_checksum]
    · have h2 : (AttemptCounter.increment P ⟨k⟩ h).2
          = AttemptCounter.update_checksum P ⟨k⟩
            { h with attempt_counter := h.attempt_counter + 1 } := by
        simp [AttemptCounter.increment, hsd]
      rw [h2]
      exact verify_update_checksum P ⟨k⟩ _
  · intro hor
    have hsd : h.should_destroy = true := by
      simp [SecurityHeader.should_destroy]
      rcases hor with h1 | h1
      · exact Or.inr h1
      · exact Or.inl h1
    simp [AttemptCounter.increment, hsd]

theorem increment_spec_witness :
    ((AttemptCounter.increment idPrims ⟨List.replicate 32 0⟩ headerLiveX).1
        = .ok () ∧
      (AttemptCounter.increment idPrims ⟨List.replicate 32 0⟩
        headerLiveX).2.attempt_counter = headerLiveX.attempt_counter + 1) ∧
    AttemptCounter.increment idPrims ⟨List.replicate 32 0⟩ headerDeadX
      = (.error .ArchiveDestroyed, headerDeadX) :=
  ⟨⟨((increment_spec idPrims (List.replicate 32 0) headerLiveX).1
      (by constructor <;> decide)).1,
    ((increment_spec idPrims (List.replicate 32 0) headerLiveX).1
      (by constructor <;> decide)).2.1⟩,
   (increment_spec idPrims (List.replicate 32 0) headerDeadX).2
      (Or.inl (by decide))⟩

/-! ## C10: `increment` error path leaves the header untouched -/

/-- C10: whenever `AttemptCounter::increment` returns an error, the error
is `ArchiveDestroyed`, the guard `should_destroy` held at entry, and the
header comes back with every field unchanged. -/
theorem increment_error_frame (P : Prims) (k : Bytes) (h : SecurityHeader)
    (e : SecureArcError)
    (herr : (AttemptCounter.increment P ⟨k⟩ h).1 = .error e) :
    (AttemptCounter.increment P ⟨k⟩ h).2 = h ∧ e = .ArchiveDestroyed ∧
    h.should_destroy = true := by
  by_cases hsd : h.should_destroy = true
  · refine ⟨by simp [AttemptCounter.increment, hsd], ?_, hsd⟩
    have h1 : (AttemptCounter.increment P ⟨k⟩ h).1
        = .error .ArchiveDestroyed := by
      simp [AttemptCounter.increment, hsd]
    rw [h1] at herr
    injection herr with h2
    exact h2.symm
  · exfalso
    have h1 : (AttemptCounter.increment P ⟨k⟩ h).1 = .ok () := by
      simp [AttemptCounter.increment, hsd]
    rw [h1] at herr
    exact absurd herr (by simp)

theorem increment_error_frame_witness :
    (AttemptCounter.increment idPrims ⟨[]⟩ headerDeadX).2 = headerDeadX :=
  (increment_error_frame idPrims [] headerDeadX .ArchiveDestroyed rfl).1

/-! ## C5: `SelfDestruct::execute_destruction` -/

/-- The destruction postcondition of §4.7, relative to the random values
`r` drawn during the run: every slot's key overwritten by the supplied
random bytes of equal length with `active` cleared; salt and KDF
parameters replaced by the supplied random values; `destroyed` set; the
checksum overwritten by the supplied random bytes. -/
def destructionPost (r : DestructRandomness) (slots : List KeySlot)
    (out : SecurityHeader × List KeySlot) : Prop :=
  out.2.length = slots.length ∧
  (∀ i, i < slots.length →
    (out.2.getD i default).encrypted_key =
      (List.range (slots.getD i default).encrypted_key.length).map
        (r.slotBytes i) ∧
    (out.2.getD i default).active = false) ∧
  out.1.salt = (List.range 32).map r.saltBytes ∧
  out.1.kdf_memory = r.kdfMemory % 2 ^ 32 ∧
  out.1.kdf_iterations = r.kdfIterations % 2 ^ 32 ∧
  out.1.kdf_parallelism = r.kdfParallelism % 2 ^ 32 ∧
  out.1.destroyed = true ∧
  out.1.checksum = (List.range 32).map r.checksumBytes

theorem mapIdx_getD {α β : Type} (l : List α) (f : Nat → α → β) (i : Nat)
    (d : α) (db : β) (hi : i < l.length) :
    (l.mapIdx f).getD i db = f i (l.getD i d) := by
  induction l generalizing f i with
  | nil => simp at hi
  | cons a as ih =>
    rw [List.mapIdx_cons]
    cases i with
    | zero => simp
    | succ n =>
      simp only [List.getD_cons_succ]
      exact ih (fun j => f (j + 1)) n (by simpa using hi)

theorem execute_destruction_post (r : DestructRandomness)
    (h : SecurityHeader) (slots : List KeySlot) :
    destructionPost r slots (SelfDestruct.execute_destruction r h slots) := by
  unfold destructionPost SelfDestruct.execute_destruction
  refine ⟨by simp, ?_, rfl, rfl, rfl, rfl, rfl, rfl⟩
  intro i hi
  rw [mapIdx_getD slots _ i default _ hi, zeroize_encrypted_key]
  exact ⟨rfl, rfl⟩

/-- C5: `execute_destruction` establishes the destruction postcondition,
and running it a second time (with fresh randomness) establishes exactly
the same postcondition again, with `destroyed` still `true` — the
operation is idempotent in the sense of §4.7. -/
theorem execute_destruction_spec (r1 r2 : DestructRandomness)
    (h : SecurityHeader) (slots : List KeySlot) :
    destructionPost r1 slots (SelfDestruct.execute_destruction r1 h slots) ∧
    destructionPost r2 (SelfDestruct.execute_destruction r1 h slots).2
      (SelfDestruct.execute_destruction r2
        (SelfDestruct.execute_destruction r1 h slots).1
        (SelfDestruct.execute_destruction r1 h slots).2) ∧
    (SelfDestruct.execute_destruction r2
        (SelfDestruct.execute_destruction r1 h slots).1
        (SelfDestruct.execute_destruction r1 h slots).2).1.destroyed
      = true :=
  ⟨execute_destruction_post r1 h slots,
   execute_destruction_post r2 _ _,
   rfl⟩

/-! ## C7: on-disk algorithm identifiers -/

/-- Modelled from the spec: the single-byte algorithm identifiers §6
prescribes for the serialized header (`u8`, stored in header): KDF
`1 = Argon2id`, `2 = PBKDF2-SHA256`. -/
def kdfSpecId : KdfAlgorithm → Nat
  | .Argon2id => 1
  | .Pbkdf2Sha256 => 2

/-- Modelled from the spec: encryption identifiers `1 = AES-256-GCM`,
`2 = ChaCha20-Poly1305`. -/
def encryptionSpecId : EncryptionAlgorithm → Nat
  | .Aes256Gcm => 1
  | .ChaCha20Poly1305 => 2

/-- Modelled from the spec: compression identifiers `0 = None`,
`1 = LZMA2`, `2 = Zstd`, `3 = Brotli`. -/
def compressionSpecId : CompressionAlgorithm → Nat
  | .None => 0
  | .Lzma2 => 1
  | .Zstd => 2
  | .Brotli => 3

/-- A header fixture with `None` compression, for evaluating the
serializer. -/
def headerNoneCompX : SecurityHeader :=
  { headerLiveX with compression_algorithm := .None }

/-- C7 counterexample: in the serialized header the KDF identifier field
is the four bytes `[0,0,0,0]` for `Argon2id` — neither a single byte nor
the value 1 the claim prescribes — and the compression identifier field
for `None` is the four bytes `[3,0,0,0]`, not the single byte 0. -/
theorem serializeHeader_ids_counterexample :
    (serializeHeader headerNoneCompX).take 4 = [0, 0, 0, 0] ∧
    kdfSpecId headerNoneCompX.kdf_algorithm = 1 ∧
    ((serializeHeader headerNoneCompX).drop 20).take 4 = [3, 0, 0, 0] ∧
    compressionSpecId headerNoneCompX.compression_algorithm = 0 ∧
    ((serializeHeader headerNoneCompX).drop 16).take 4 = [0, 0, 0, 0] ∧
    encryptionSpecId headerNoneCompX.encryption_algorithm = 1 := by
  refine ⟨by decide, by decide, ?_, by decide, ?_, by decide⟩ <;> decide

/-- C7 amended: each algorithm identifier is stored in the serialized
header as a **four-byte little-endian `u32` holding the bincode variant
index** (declaration order), i.e. KDF `0 = Argon2id`, `1 = PBKDF2-SHA256`;
encryption `0 = AES-256-GCM`, `1 = ChaCha20-Poly1305`; compression
`0 = LZMA2`, `1 = Zstd`, `2 = Brotli`, `3 = None`: bytes 0–3, 16–19 and
20–23 of the header bytes, respectively. -/
theorem serializeHeader_algorithm_ids (h : SecurityHeader) :
    (serializeHeader h).take 4 = u32le h.kdf_algorithm.variantIndex ∧
    ((serializeHeader h).drop 16).take 4
      = u32le h.encryption_algorithm.variantIndex ∧
    ((serializeHeader h).drop 20).take 4
      = u32le h.compression_algorithm.variantIndex := by
  refine ⟨?_, ?_, ?_⟩ <;>
    simp [serializeHeader, u32le, List.take_succ_cons, List.drop_succ_cons]

/-! ## C9: counter bounds invariant -/

/-- The counter bounds of §3: `attempt_counter ≤ max_attempts` and
`3 ≤ max_attempts ≤ 99`  (`0 ≤ attempt_counter` holds by the `Nat`
representation of `u32`). -/
def CounterInv (h : SecurityHeader) : Prop :=
  h.attempt_counter ≤ h.max_attempts ∧ 3 ≤ h.max_attempts ∧
  h.max_attempts ≤ 99

instance (h : SecurityHeader) : Decidable (CounterInv h) := by
  unfold CounterInv; infer_instance

theorem update_checksum_attempt_counter (P : Prims) (c : AttemptCounter)
    (h : SecurityHeader) :
    (c.update_checksum P h).attempt_counter = h.attempt_counter := rfl

theorem update_checksum_max_attempts (P : Prims) (c : AttemptCounter)
    (h : SecurityHeader) :
    (c.update_checksum P h).max_attempts = h.max_attempts := rfl

theorem update_file_header (st : ArchiveReader) :
    st.update_file.header = st.header := rfl

theorem increment_eq_destroyed (P : Prims) (c : AttemptCounter)
    (h : SecurityHeader) (hsd : h.should_destroy = true) :
    AttemptCounter.increment P c h = (.error .ArchiveDestroyed, h) := by
  simp [AttemptCounter.increment, hsd]

theorem increment_eq_live (P : Prims) (c : AttemptCounter)
    (h : SecurityHeader) (hsd : h.should_destroy = false) :
    AttemptCounter.increment P c h
      = (.ok (), c.update_checksum P
          { h with attempt_counter := h.attempt_counter + 1 }) := by
  simp [AttemptCounter.increment, hsd]

theorem should_destroy_false_iff (h : SecurityHeader) :
    h.should_destroy = false ↔
      h.attempt_counter < h.max_attempts ∧ h.destroyed = false := by
  unfold SecurityHeader.should_destroy
  cases hd : h.destroyed
  · simp [hd]
  · simp [hd]

theorem validate_counterInv (h : SecurityHeader)
    (hv : h.validate = .ok ()) : CounterInv h := by
  unfold SecurityHeader.validate at hv
  split at hv
  · exact absurd hv (by simp)
  · split at hv
    · exact absurd hv (by simp)
    · next h1 h2 =>
      simp only [MIN_MAX_ATTEMPTS, MAX_MAX_ATTEMPTS, not_or, not_lt] at h1 h2
      exact ⟨by omega, h1.1, h1.2⟩

theorem commitFailedAttempt_counterInv (P : Prims) (r : DestructRandomness)
    (st : ArchiveReader) (c : AttemptCounter)
    (hinv : CounterInv st.header) :
    CounterInv (st.commitFailedAttempt P r c).2.header := by
  unfold ArchiveReader.commitFailedAttempt
  by_cases hsd : st.header.should_destroy = true
  · rw [increment_eq_destroyed P c _ hsd]
    exact hinv
  · have hsd' : st.header.should_destroy = false := by simpa using hsd
    have hlt := ((should_destroy_false_iff st.header).mp hsd').1
    rw [increment_eq_live P c _ hsd']
    simp only []
    set h1 := c.update_checksum P
      { st.header with attempt_counter := st.header.attempt_counter + 1 }
    have hc1 : h1.attempt_counter = st.header.attempt_counter + 1 :=
      update_checksum_attempt_counter ..
    have hm1 : h1.max_attempts = st.header.max_attempts :=
      update_checksum_max_attempts ..
    have hinv1 : CounterInv h1 := by
      refine ⟨?_, ?_, ?_⟩
      · rw [hc1, hm1]
        omega
      · rw [hm1]
        exact hinv.2.1
      · rw [hm1]
        exact hinv.2.2
    by_cases hsd1 : AttemptCounter.should_destroy c h1 = true
    · simp only [hsd1, if_true, update_file_header]
      exact hinv1
    · simp only [hsd1, if_false, Bool.false_eq_true, update_file_header]
      exact hinv1

theorem unlockDirectory_state (P : Prims) (selfk : ArchiveReader)
    (mkd : Bytes) :
    (ArchiveReader.unlockDirectory P selfk mkd).2.header = selfk.header ∧
    (ArchiveReader.unlockDirectory P selfk mkd).2.fileBytes
      = selfk.fileBytes ∧
    (ArchiveReader.unlockDirectory P selfk mkd).2.key_slots
      = selfk.key_slots ∧
    (ArchiveReader.unlockDirectory P selfk mkd).2.master_key
      = selfk.master_key := by
  unfold ArchiveReader.unlockDirectory
  split
  · exact ⟨rfl, rfl, rfl, rfl⟩
  · split
    · exact ⟨rfl, rfl, rfl, rfl⟩
    · split
      · exact ⟨rfl, rfl, rfl, rfl⟩
      · split
        · exact ⟨rfl, rfl, rfl, rfl⟩
        · split
          · exact ⟨rfl, rfl, rfl, rfl⟩
          · exact ⟨rfl, rfl, rfl, rfl⟩

theorem unlockVerified_counterInv (P : Prims) (r : DestructRandomness)
    (st : ArchiveReader) (pw : Bytes) (c : AttemptCounter)
    (hinv : CounterInv st.header) :
    CounterInv (st.unlockVerified P r pw c).2.header := by
  unfold ArchiveReader.unlockVerified
  split
  · exact hinv
  · split
    · exact hinv
    · split
      · exact hinv
      · split
        · exact commitFailedAttempt_counterInv _ _ _ _ hinv
        · rw [(unlockDirectory_state _ _ _).1]
          exact hinv

theorem unlock_counterInv (P : Prims) (r : DestructRandomness)
    (st : ArchiveReader) (pw : Bytes) (hinv : CounterInv st.header) :
    CounterInv (st.unlock P r pw).2.header := by
  unfold ArchiveReader.unlock
  split
  · exact hinv
  · split
    · exact hinv
    · split
      · exact hinv
      · split
        · exact commitFailedAttempt_counterInv _ _ _ _ hinv
        · exact unlockVerified_counterInv _ _ _ _ _ hinv

theorem openArchive_validate (f : Bytes) (rd : ArchiveReader)
    (h : openArchive f = .ok rd) : rd.header.validate = .ok () := by
  unfold openArchive at h
  split at h
  · exact absurd h (by simp)
  · split at h
    · exact absurd h (by simp)
    · split at h
      · exact absurd h (by simp)
      · split at h
        · exact absurd h (by simp)
        · split at h
          · exact absurd h (by simp)
          · split at h
            · exact absurd h (by simp)
            · next hval =>
              split at h
              · exact absurd h (by simp)
              · split at h
                · exact absurd h (by simp)
                · split at h
                  · exact absurd h (by simp)
                  · split at h
                    · exact absurd h (by simp)
                    · split at h
                      · exact absurd h (by simp)
                      · injection h with h1
                        subst h1
                        cases hu : SecurityHeader.validate _ with
                        | ok u => cases u; rfl
                        | error e => rw [hu] at hval; exact absurd hval (by simp)

/-- C9: the bounds `attempt_counter ≤ max_attempts` and
`3 ≤ max_attempts ≤ 99` are established by `SecurityHeader::new` (which
rejects `max_attempts` outside `[3,99]`), by `validate` (which also
rejects `attempt_counter > max_attempts`), hold for every header produced
by `open`, and are preserved by `increment` (which never pushes the
counter past the limit), by destruction, and by `unlock`. -/
theorem counter_bounds_invariant (P : Prims) (r : DestructRandomness)
    (k : Bytes) (ma : Nat) (salt : Bytes) (h : SecurityHeader)
    (slots : List KeySlot) (st : ArchiveReader) (pw f : Bytes) :
    (∀ h0, SecurityHeader.new ma salt = .ok h0 → CounterInv h0) ∧
    (ma < 3 ∨ 99 < ma → ∀ h0, SecurityHeader.new ma salt ≠ .ok h0) ∧
    (h.validate = .ok () → CounterInv h) ∧
    (h.max_attempts < h.attempt_counter → h.validate ≠ .ok ()) ∧
    (CounterInv h → (AttemptCounter.increment P ⟨k⟩ h).1 = .ok () →
      CounterInv (AttemptCounter.increment P ⟨k⟩ h).2) ∧
    (CounterInv h →
      CounterInv (SelfDestruct.execute_destruction r h slots).1) ∧
    (∀ rd, openArchive f = .ok rd → CounterInv rd.header) ∧
    (CounterInv st.header → CounterInv (st.unlock P r pw).2.header) := by
  refine ⟨?_, ?_, ?_, ?_, ?_, ?_, ?_, ?_⟩
  · intro h0 hnew
    unfold SecurityHeader.new at hnew
    split at hnew
    · exact absurd hnew (by simp)
    · next hcond =>
      simp only [MIN_MAX_ATTEMPTS, MAX_MAX_ATTEMPTS, not_or, not_lt] at hcond
      injection hnew with h1
      subst h1
      exact ⟨Nat.zero_le _, hcond.1, hcond.2⟩
  · intro hout h0
    unfold SecurityHeader.new
    rw [if_pos]
    · simp
    · simpa [MIN_MAX_ATTEMPTS, MAX_MAX_ATTEMPTS] using hout
  · exact validate_counterInv h
  · intro hgt hv
    obtain ⟨h1, -, -⟩ := validate_counterInv h hv
    omega
  · intro hinv hok
    by_cases hsd : h.should_destroy = true
    · rw [increment_eq_destroyed P _ _ hsd] at hok
      exact absurd hok (by simp)
    · have hsd' : h.should_destroy = false := by simpa using hsd
      have hlt := ((should_destroy_false_iff h).mp hsd').1
      rw [increment_eq_live P _ _ hsd']
      refine ⟨?_, ?_, ?_⟩
      · rw [update_checksum_attempt_counter, update_checksum_max_attempts]
        show h.attempt_counter + 1 ≤ h.max_attempts
        omega
      · rw [update_checksum_max_attempts]
        show 3 ≤ h.max_attempts
        exact hinv.2.1
      · rw [update_checksum_max_attempts]
        show h.max_attempts ≤ 99
        exact hinv.2.2
  · intro hinv
    exact hinv
  · intro rd hopen
    exact validate_counterInv rd.header (openArchive_validate f rd hopen)
  · exact unlock_counterInv P r st pw

theorem counter_bounds_invariant_witness : CounterInv headerLiveX :=
  (counter_bounds_invariant idPrims rngZero [] 3 [] headerLiveX []
    { fileBytes := [], header := headerLiveX, key_slots := [],
      directory := CentralDirectory.new, master_key := none,
      encryption_algorithm := .Aes256Gcm, compression_algorithm := .Lzma2,
      directory_offset := 0, payload_offset := 0 } [] []).2.2.1 rfl

/-! ## Persist lemmas: what `update_file` leaves on disk -/

theorem take_length_of_le (f : Bytes) (off : Nat) (h : off ≤ f.length) :
    (f.take off).length = off := by
  rw [List.length_take]; omega

theorem overwrite_then_slice (f B S : Bytes) (off1 : Nat)
    (hf : off1 ≤ f.length) :
    ((writeAt (writeAt f off1 B) (off1 + B.length) S).drop off1).take
      B.length = B := by
  have h1 := take_length_of_le f off1 hf
  have hf1 : writeAt f off1 B
      = (f.take off1 ++ B) ++ f.drop (off1 + B.length) := by
    unfold writeAt; rw [List.append_assoc]
  have h2 : (f.take off1 ++ B).length = off1 + B.length := by
    simp [h1]
  have h3 : (writeAt f off1 B).take (off1 + B.length) = f.take off1 ++ B := by
    rw [hf1, List.take_left' h2]
  have h4 : writeAt (writeAt f off1 B) (off1 + B.length) S
      = f.take off1 ++ (B ++ (S ++ (writeAt f off1 B).drop
          (off1 + B.length + S.length))) := by
    show (writeAt f off1 B).take (off1 + B.length) ++ S ++
        (writeAt f off1 B).drop (off1 + B.length + S.length) = _
    rw [h3]
    simp [List.append_assoc]
  rw [h4, List.drop_left' h1, List.take_left]

theorem overwrite_snd_slice (f B S : Bytes) (off1 : Nat)
    (hf : off1 ≤ f.length) :
    ((writeAt (writeAt f off1 B) (off1 + B.length) S).drop
      (off1 + B.length)).take S.length = S := by
  have h1 := take_length_of_le f off1 hf
  have hf1 : writeAt f off1 B
      = (f.take off1 ++ B) ++ f.drop (off1 + B.length) := by
    unfold writeAt; rw [List.append_assoc]
  have h2 : (f.take off1 ++ B).length = off1 + B.length := by
    simp [h1]
  have h3 : (writeAt f off1 B).take (off1 + B.length) = f.take off1 ++ B := by
    rw [hf1, List.take_left' h2]
  show (((writeAt f off1 B).take (off1 + B.length) ++ S ++
      (writeAt f off1 B).drop (off1 + B.length + S.length)).drop
      (off1 + B.length)).take S.length = S
  rw [h3, List.append_assoc, List.drop_left' h2, List.take_left]

/-- After `update_file`, the bytes at offset 8 are the header-size prefix
followed by the serialized header, and the bytes right after are the
serialized slot table. -/
theorem update_file_persists (st : ArchiveReader)
    (hf : 8 ≤ st.fileBytes.length) :
    (st.update_file.fileBytes.drop 8).take
        (4 + (serializeHeader st.header).length)
      = u32le (serializeHeader st.header).length ++ serializeHeader st.header ∧
    (st.update_file.fileBytes.drop
        (12 + (serializeHeader st.header).length)).take
        (slotsBlockOf st.key_slots).length
      = slotsBlockOf st.key_slots := by
  have hB : (u32le (serializeHeader st.header).length ++
      serializeHeader st.header).length
      = 4 + (serializeHeader st.header).length := by
    simp [u32le]
    omega
  have hoff : 8 + 4 + (serializeHeader st.header).length
      = 8 + (u32le (serializeHeader st.header).length ++
          serializeHeader st.header).length := by
    rw [hB]; omega
  have hfb : st.update_file.fileBytes
      = writeAt (writeAt st.fileBytes 8
          (u32le (serializeHeader st.header).length ++
            serializeHeader st.header))
        (8 + (u32le (serializeHeader st.header).length ++
            serializeHeader st.header).length)
        (slotsBlockOf st.key_slots) := by
    show writeAt (writeAt st.fileBytes 8 _) (8 + 4 +
      (serializeHeader st.header).length) _ = _
    rw [hoff]
  constructor
  · have := overwrite_then_slice st.fileBytes
      (u32le (serializeHeader st.header).length ++ serializeHeader st.header)
      (slotsBlockOf st.key_slots) 8 hf
    rw [hfb, ← hB]
    exact this
  · have := overwrite_snd_slice st.fileBytes
      (u32le (serializeHeader st.header).length ++ serializeHeader st.header)
      (slotsBlockOf st.key_slots) 8 hf
    rw [hfb]
    have h12 : 12 + (serializeHeader st.header).length
        = 8 + (u32le (serializeHeader st.header).length ++
            serializeHeader st.header).length := by
      rw [hB]; omega
    rw [h12]
    exact this

/-- The serialized header alone, recoverable at offset 12. -/
theorem update_file_persists_header (st : ArchiveReader)
    (hf : 8 ≤ st.fileBytes.length) :
    (st.update_file.fileBytes.drop 12).take
      (serializeHeader st.header).length = serializeHeader st.header := by
  have h1 := (update_file_persists st hf).1
  have h2 : (st.update_file.fileBytes.drop 12).take
      (serializeHeader st.header).length
      = ((st.update_file.fileBytes.drop 8).take
          (4 + (serializeHeader st.header).length)).drop 4 := by
    rw [List.drop_take, List.drop_drop]
    norm_num [Nat.add_sub_cancel_left]
  rw [h2, h1, List.drop_left' (by simp [u32le])]

/-! ## C2: the HMAC-failure path of `unlock` -/

theorem WF_increment_header (P : Prims) (c : AttemptCounter)
    (h : SecurityHeader) (hw : h.WF)
    (hlt : h.attempt_counter < h.max_attempts)
    (hmac32 : ∀ k d, (P.hmacSha256 k d).length = 32) :
    (c.update_checksum P
      { h with attempt_counter := h.attempt_counter + 1 }).WF := by
  obtain ⟨hs, hc, hm, hi, hp, ha, hx⟩ := hw
  refine ⟨?_, ?_, ?_, ?_, ?_, ?_, ?_⟩
  · show h.salt.length = 32
    exact hs
  · show (P.hmacSha256 _ _).length = 32
    exact hmac32 _ _
  · show h.kdf_memory < 2 ^ 32
    exact hm
  · show h.kdf_iterations < 2 ^ 32
    exact hi
  · show h.kdf_parallelism < 2 ^ 32
    exact hp
  · show h.attempt_counter + 1 < 2 ^ 32
    omega
  · show h.max_attempts < 2 ^ 32
    exact hx

theorem WF_destroyed_header (r : DestructRandomness) (h : SecurityHeader)
    (slots : List KeySlot) (ha : h.attempt_counter < 2 ^ 32)
    (hx : h.max_attempts < 2 ^ 32) :
    (SelfDestruct.execute_destruction r h slots).1.WF := by
  refine ⟨?_, ?_, ?_, ?_, ?_, ?_, ?_⟩
  · show ((List.range 32).map r.saltBytes).length = 32
    simp
  · show ((List.range 32).map r.checksumBytes).length = 32
    simp
  · show r.kdfMemory % 2 ^ 32 < 2 ^ 32
    exact Nat.mod_lt _ (by norm_num)
  · show r.kdfIterations % 2 ^ 32 < 2 ^ 32
    exact Nat.mod_lt _ (by norm_num)
  · show r.kdfParallelism % 2 ^ 32 < 2 ^ 32
    exact Nat.mod_lt _ (by norm_num)
  · show h.attempt_counter < 2 ^ 32
    exact ha
  · show h.max_attempts < 2 ^ 32
    exact hx

theorem destruction_slots_inactive (g : Nat → Nat → Nat) :
    ∀ (slots : List KeySlot)
      (s : KeySlot), s ∈ slots.mapIdx (fun i sl => sl.zeroize (g i)) →
      s.active = false := by
  intro slots
  induction slots generalizing g with
  | nil => simp
  | cons a as ih =>
    rw [List.mapIdx_cons]
    intro s hs
    rcases List.mem_cons.mp hs with h | h
    · rw [h]; rfl
    · exact ih (fun i => g (i + 1)) s h

theorem commitFailedAttempt_spec (P : Prims) (r : DestructRandomness)
    (st : ArchiveReader) (c : AttemptCounter)
    (hwf : st.header.WF) (hd : st.header.destroyed = false)
    (hlt : st.header.attempt_counter < st.header.max_attempts)
    (hmac32 : ∀ k d, (P.hmacSha256 k d).length = 32)
    (hfile : 8 ≤ st.fileBytes.length) :
    (st.commitFailedAttempt P r c).2.header.attempt_counter
      = st.header.attempt_counter + 1 ∧
    parseHeader (((st.commitFailedAttempt P r c).2.fileBytes.drop 12).take 97)
      = some ((st.commitFailedAttempt P r c).2.header, []) ∧
    ((st.commitFailedAttempt P r c).2.fileBytes.drop (12 + 97)).take
        (slotsBlockOf (st.commitFailedAttempt P r c).2.key_slots).length
      = slotsBlockOf (st.commitFailedAttempt P r c).2.key_slots ∧
    (if st.header.max_attempts ≤ st.header.attempt_counter + 1 then
      (st.commitFailedAttempt P r c).1 = .error .MaxAttemptsExceeded ∧
      (st.commitFailedAttempt P r c).2.header.destroyed = true ∧
      ∀ s ∈ (st.commitFailedAttempt P r c).2.key_slots, s.active = false
    else
      (st.commitFailedAttempt P r c).1 = .error .InvalidPassword ∧
      (st.commitFailedAttempt P r c).2.header.destroyed = false) := by
  have hsd : st.header.should_destroy = false :=
    (should_destroy_false_iff st.header).mpr ⟨hlt, hd⟩
  have hwf1 : (c.update_checksum P { st.header with
      attempt_counter := st.header.attempt_counter + 1 }).WF :=
    WF_increment_header P c st.header hwf hlt hmac32
  unfold ArchiveReader.commitFailedAttempt
  rw [increment_eq_live P c _ hsd]
  simp only []
  set h1 := c.update_checksum P
    { st.header with attempt_counter := st.header.attempt_counter + 1 }
    with hh1
  have hc1 : h1.attempt_counter = st.header.attempt_counter + 1 := rfl
  have hm1 : h1.max_attempts = st.header.max_attempts := rfl
  have hd1 : h1.destroyed = false := hd
  have hsd1 : AttemptCounter.should_destroy c h1
      = decide (st.header.max_attempts ≤ st.header.attempt_counter + 1) := by
    show h1.should_destroy = _
    unfold SecurityHeader.should_destroy
    rw [hc1, hm1, hd1, Bool.or_false]
  by_cases hcase :
      st.header.max_attempts ≤ st.header.attempt_counter + 1
  · rw [if_pos hcase]
    have hsd1' : AttemptCounter.should_destroy c h1 = true := by
      rw [hsd1]; simpa using hcase
    simp only [hsd1', if_true]
    set st1 : ArchiveReader := { st with header := h1 } with hst1
    set hs2 := SelfDestruct.execute_destruction r st1.header st1.key_slots
      with hhs2
    set st2 : ArchiveReader := { st1 with header := hs2.1, key_slots := hs2.2 }
      with hst2
    have hwf2 : st2.header.WF := by
      show (SelfDestruct.execute_destruction r st1.header st1.key_slots).1.WF
      exact WF_destroyed_header r st1.header st1.key_slots
        (by rw [show st1.header = h1 from rfl, hc1]
            have := hwf.2.2.2.2.2.2
            omega)
        (by rw [show st1.header = h1 from rfl, hm1]
            exact hwf.2.2.2.2.2.2)
    have hlen2 : (serializeHeader st2.header).length = 97 :=
      serializeHeader_length st2.header hwf2.1 hwf2.2.1
    have hfile2 : 8 ≤ st2.fileBytes.length := hfile
    refine ⟨?_, ?_, ?_, ?_, ?_, ?_⟩
    · show hs2.1.attempt_counter = st.header.attempt_counter + 1
      show st1.header.attempt_counter = st.header.attempt_counter + 1
      exact hc1
    · rw [update_file_header, ← hlen2, update_file_persists_header st2 hfile2]
      have := parseHeader_rt st2.header hwf2 []
      rwa [List.append_nil] at this
    · have h97 : (12 : Nat) + 97
          = 12 + (serializeHeader st2.header).length := by rw [hlen2]
      rw [show st2.update_file.key_slots = st2.key_slots from rfl, h97]
      exact (update_file_persists st2 hfile2).2
    · trivial
    · show hs2.1.destroyed = true
      rfl
    · intro s hs
      exact destruction_slots_inactive r.slotBytes st1.key_slots s hs
  · rw [if_neg hcase]
    have hsd1' : AttemptCounter.should_destroy c h1 = false := by
      rw [hsd1]; simpa using hcase
    simp only [hsd1', Bool.false_eq_true, if_false]
    set st1 : ArchiveReader := { st with header := h1 } with hst1
    have hlen1 : (serializeHeader st1.header).length = 97 :=
      serializeHeader_length st1.header hwf1.1 hwf1.2.1
    have hfile1 : 8 ≤ st1.fileBytes.length := hfile
    refine ⟨?_, ?_, ?_, ?_, ?_⟩
    · exact hc1
    · rw [update_file_header, ← hlen1, update_file_persists_header st1 hfile1]
      have := parseHeader_rt st1.header hwf1 []
      rwa [List.append_nil] at this
    · have h97 : (12 : Nat) + 97
          = 12 + (serializeHeader st1.header).length := by rw [hlen1]
      rw [show st1.update_file.key_slots = st1.key_slots from rfl, h97]
      exact (update_file_persists st1 hfile1).2
    · trivial
    · exact hd1

/-- Reduction: header-HMAC failure routes `unlock` into the
failed-attempt commit. -/
theorem unlock_eq_commit (P : Prims) (r : DestructRandomness)
    (st : ArchiveReader) (pw ikb : Bytes)
    (hnd : SelfDestruct.is_destroyed st.header = false)
    (hkdf : derive_key P pw (xorFirstByte st.header.salt)
      (kdfParamsOfHeader st.header) = .ok ikb)
    (hikb : ikb.length = 32)
    (hver : compute_checksum P (serialize_header_for_hmac st.header) ikb
      ≠ st.header.checksum) :
    st.unlock P r pw = st.commitFailedAttempt P r ⟨ikb⟩ := by
  have hik : IntegrityKey.from_bytes ikb = .ok ikb := by
    simp [IntegrityKey.from_bytes, hikb]
  have hv : AttemptCounter.verify_checksum P ⟨ikb⟩ st.header
      = .error .CounterTamperingDetected := by
    unfold AttemptCounter.verify_checksum
    rw [if_neg hver]
  unfold ArchiveReader.unlock
  rw [hnd]
  simp only [Bool.false_eq_true, if_false, hkdf, hik, hv]

/-- Reduction: once the header HMAC verifies, `unlock` proceeds to the
verified tail. -/
theorem unlock_eq_verified (P : Prims) (r : DestructRandomness)
    (st : ArchiveReader) (pw ikb : Bytes)
    (hnd : SelfDestruct.is_destroyed st.header = false)
    (hkdf : derive_key P pw (xorFirstByte st.header.salt)
      (kdfParamsOfHeader st.header) = .ok ikb)
    (hikb : ikb.length = 32)
    (hver : compute_checksum P (serialize_header_for_hmac st.header) ikb
      = st.header.checksum) :
    st.unlock P r pw = st.unlockVerified P r pw ⟨ikb⟩ := by
  have hik : IntegrityKey.from_bytes ikb = .ok ikb := by
    simp [IntegrityKey.from_bytes, hikb]
  have hv : AttemptCounter.verify_checksum P ⟨ikb⟩ st.header = .ok () := by
    unfold AttemptCounter.verify_checksum
    rw [if_pos hver]
  unfold ArchiveReader.unlock
  rw [hnd]
  simp only [Bool.false_eq_true, if_false, hkdf, hik, hv]

/-- C2: when the header HMAC (computed under the integrity key over the
header with its checksum zeroed) fails to verify, `unlock` increments the
attempt counter, destroys the archive if the counter is now at
`max_attempts`, writes the updated header and slots back into the file
bytes (the 97 bytes at offset 12 parse back to exactly the post-increment
header, and the slot table region to the updated slots), and returns
`InvalidPassword` when the new counter is still below `max_attempts`, or
`MaxAttemptsExceeded` when destruction just fired. -/
theorem unlock_hmac_failure_commits (P : Prims) (r : DestructRandomness)
    (st : ArchiveReader) (pw ikb : Bytes)
    (hwf : st.header.WF)
    (hnd : SelfDestruct.is_destroyed st.header = false)
    (hkdf : derive_key P pw (xorFirstByte st.header.salt)
      (kdfParamsOfHeader st.header) = .ok ikb)
    (hikb : ikb.length = 32)
    (hver : compute_checksum P (serialize_header_for_hmac st.header) ikb
      ≠ st.header.checksum)
    (hmac32 : ∀ k d, (P.hmacSha256 k d).length = 32)
    (hfile : 8 ≤ st.fileBytes.length) :
    (st.unlock P r pw).2.header.attempt_counter
      = st.header.attempt_counter + 1 ∧
    parseHeader (((st.unlock P r pw).2.fileBytes.drop 12).take 97)
      = some ((st.unlock P r pw).2.header, []) ∧
    ((st.unlock P r pw).2.fileBytes.drop (12 + 97)).take
        (slotsBlockOf (st.unlock P r pw).2.key_slots).length
      = slotsBlockOf (st.unlock P r pw).2.key_slots ∧
    (if st.header.max_attempts ≤ st.header.attempt_counter + 1 then
      (st.unlock P r pw).1 = .error .MaxAttemptsExceeded ∧
      (st.unlock P r pw).2.header.destroyed = true ∧
      ∀ s ∈ (st.unlock P r pw).2.key_slots, s.active = false
    else
      (st.unlock P r pw).1 = .error .InvalidPassword ∧
      (st.unlock P r pw).2.header.destroyed = false) := by
  have hnd' := hnd
  unfold SelfDestruct.is_destroyed at hnd'
  have hdf : st.header.destroyed = false := by
    cases hdd : st.header.destroyed
    · rfl
    · rw [hdd] at hnd'; simp at hnd'
  have hsd : st.header.should_destroy = false := by
    cases hss : st.header.should_destroy
    · rfl
    · rw [hss] at hnd'; simp at hnd'
  have hlt := ((should_destroy_false_iff st.header).mp hsd).1
  rw [unlock_eq_commit P r st pw ikb hnd hkdf hikb hver]
  exact commitFailedAttempt_spec P r st ⟨ikb⟩ hwf hdf hlt hmac32 hfile

/-- C2 witness fixture: a live header whose stored checksum disagrees with
the recomputed HMAC. -/
def stC2 : ArchiveReader :=
  { fileBytes := List.replicate 200 0,
    header := { headerLiveX with checksum := List.replicate 32 1 },
    key_slots := [⟨List.replicate 60 0, 0, true⟩],
    directory := CentralDirectory.new, master_key := none,
    encryption_algorithm := .Aes256Gcm, compression_algorithm := .Lzma2,
    directory_offset := 0, payload_offset := 0 }

set_option maxRecDepth 4096 in
theorem unlock_hmac_failure_commits_witness :
    (stC2.unlock idPrims rngZero [112]).2.header.attempt_counter
      = stC2.header.attempt_counter + 1 ∧
    (stC2.unlock idPrims rngZero [112]).1 = .error .InvalidPassword := by
  have h := unlock_hmac_failure_commits idPrims rngZero stC2 [112]
    (List.replicate 32 0) (by decide) (by decide) (by decide) (by decide)
    (by decide) (fun _ _ => rfl) (by decide)
  refine ⟨h.1, ?_⟩
  have h4 := h.2.2.2
  rw [if_neg (by decide)] at h4
  exact h4.1

/-! ## C1: the slot-0 decryption failure path of `unlock` -/

/-- C1 (code evaluation): after the header HMAC has verified, a failure of
slot 0's AEAD decryption makes `unlock` return `InvalidPassword` with the
reader state — header, attempt counter, key slots and file bytes —
completely unchanged: the counter-increment / possibly-destroy / persist
path that the specification mandates for this case is skipped (the source
maps the decryption error straight to `InvalidPassword` with `?`). -/
theorem unlock_slot_decrypt_failure_no_commit (P : Prims)
    (r : DestructRandomness) (st : ArchiveReader) (pw ikb dk : Bytes)
    (e : SecureArcError)
    (hnd : SelfDestruct.is_destroyed st.header = false)
    (hkdf : derive_key P pw (xorFirstByte st.header.salt)
      (kdfParamsOfHeader st.header) = .ok ikb)
    (hikb : ikb.length = 32)
    (hver : compute_checksum P (serialize_header_for_hmac st.header) ikb
      = st.header.checksum)
    (hkdf2 : derive_key P pw st.header.salt (kdfParamsOfHeader st.header)
      = .ok dk)
    (hdk : dk.length = 32)
    (hdec : decrypt_data P st.key_slots.headI.encrypted_key dk
      st.encryption_algorithm = .error e) :
    st.unlock P r pw = (.error .InvalidPassword, st) := by
  rw [unlock_eq_verified P r st pw ikb hnd hkdf hikb hver]
  have hek : EncryptionKey.from_bytes dk = .ok dk := by
    simp [EncryptionKey.from_bytes, hdk]
  unfold ArchiveReader.unlockVerified
  simp only [hkdf2, hek, hdec]

/-- C1 witness fixture: valid header HMAC, slot 0 ciphertext empty (AEAD
rejects it). -/
def stC1 : ArchiveReader :=
  { fileBytes := [], header := headerLiveX,
    key_slots := [⟨[], 0, true⟩],
    directory := CentralDirectory.new, master_key := none,
    encryption_algorithm := .Aes256Gcm, compression_algorithm := .Lzma2,
    directory_offset := 0, payload_offset := 0 }

theorem unlock_slot_decrypt_failure_no_commit_witness :
    stC1.unlock idPrims rngZero [112] = (.error .InvalidPassword, stC1) :=
  unlock_slot_decrypt_failure_no_commit idPrims rngZero stC1 [112]
    (List.replicate 32 0) (List.replicate 32 0)
    (.EncryptionError "Encrypted data too short")
    (by decide) (by decide) (by decide) (by decide) (by decide) (by decide)
    (by decide)

/-! ## C8: a successful unlock changes nothing persistent -/

theorem commitFailedAttempt_not_ok (P : Prims) (r : DestructRandomness)
    (st : ArchiveReader) (c : AttemptCounter) :
    (st.commitFailedAttempt P r c).1 ≠ .ok () := by
  unfold ArchiveReader.commitFailedAttempt
  by_cases hsd : st.header.should_destroy = true
  · rw [increment_eq_destroyed P c _ hsd]
    simp
  · rw [increment_eq_live P c _ (by simpa using hsd)]
    simp only []
    by_cases h2 : AttemptCounter.should_destroy c
        (c.update_checksum P { st.header with
          attempt_counter := st.header.attempt_counter + 1 }) = true
    · simp [h2]
    · simp [h2]

theorem unlockVerified_success_frame (P : Prims) (r : DestructRandomness)
    (st : ArchiveReader) (pw : Bytes) (c : AttemptCounter)
    (hok : (st.unlockVerified P r pw c).1 = .ok ()) :
    (st.unlockVerified P r pw c).2.header = st.header ∧
    (st.unlockVerified P r pw c).2.fileBytes = st.fileBytes ∧
    (st.unlockVerified P r pw c).2.key_slots = st.key_slots := by
  cases hk : derive_key P pw st.header.salt (kdfParamsOfHeader st.header) with
  | error e =>
    have heq : st.unlockVerified P r pw c = (.error e, st) := by
      unfold ArchiveReader.unlockVerified
      simp only [hk]
    rw [heq] at hok
    exact absurd hok (by simp)
  | ok dk =>
    cases hek : EncryptionKey.from_bytes dk with
    | error e =>
      have heq : st.unlockVerified P r pw c = (.error e, st) := by
        unfold ArchiveReader.unlockVerified
        simp only [hk, hek]
      rw [heq] at hok
      exact absurd hok (by simp)
    | ok ek =>
      cases hdec : decrypt_data P st.key_slots.headI.encrypted_key ek
          st.encryption_algorithm with
      | error e =>
        have heq : st.unlockVerified P r pw c = (.error .InvalidPassword, st) := by
          unfold ArchiveReader.unlockVerified
          simp only [hk, hek, hdec]
        rw [heq] at hok
        exact absurd hok (by simp)
      | ok mkd =>
        by_cases hlen : mkd.length ≠ 32
        · have heq : st.unlockVerified P r pw c
              = st.commitFailedAttempt P r c := by
            unfold ArchiveReader.unlockVerified
            simp only [hk, hek, hdec]
            rw [if_pos hlen]
          rw [heq] at hok
          exact absurd hok (commitFailedAttempt_not_ok P r st c)
        · have heq : st.unlockVerified P r pw c
              = ArchiveReader.unlockDirectory P
                { st with master_key := some mkd } mkd := by
            unfold ArchiveReader.unlockVerified
            simp only [hk, hek, hdec]
            rw [if_neg hlen]
          rw [heq]
          have hstate := unlockDirectory_state P
            { st with master_key := some mkd } mkd
          exact ⟨hstate.1, hstate.2.1, hstate.2.2.1⟩

/-- C8: a successful `unlock` does not reset or otherwise change the
attempt counter: the header, the key slots and the on-disk bytes are
unchanged, and `get_info().current_attempts` reports the same value
before and after. -/
theorem unlock_success_frame (P : Prims) (r : DestructRandomness)
    (st : ArchiveReader) (pw : Bytes)
    (hok : (st.unlock P r pw).1 = .ok ()) :
    (st.unlock P r pw).2.header = st.header ∧
    (st.unlock P r pw).2.fileBytes = st.fileBytes ∧
    (st.unlock P r pw).2.key_slots = st.key_slots ∧
    (st.unlock P r pw).2.get_info.current_attempts
      = st.get_info.current_attempts := by
  by_cases h0 : SelfDestruct.is_destroyed st.header = true
  · have heq : st.unlock P r pw = (.error .ArchiveDestroyed, st) := by
      unfold ArchiveReader.unlock
      rw [h0]
      simp
    rw [heq] at hok
    exact absurd hok (by simp)
  · have h0' : SelfDestruct.is_destroyed st.header = false := by
      simpa using h0
    cases hk : derive_key P pw (xorFirstByte st.header.salt)
        (kdfParamsOfHeader st.header) with
    | error e =>
      have heq : st.unlock P r pw = (.error e, st) := by
        unfold ArchiveReader.unlock
        rw [h0']
        simp only [Bool.false_eq_true, if_false, hk]
      rw [heq] at hok
      exact absurd hok (by simp)
    | ok ikb =>
      cases hik : IntegrityKey.from_bytes ikb with
      | error e =>
        have heq : st.unlock P r pw = (.error e, st) := by
          unfold ArchiveReader.unlock
          rw [h0']
          simp only [Bool.false_eq_true, if_false, hk, hik]
        rw [heq] at hok
        exact absurd hok (by simp)
      | ok ik =>
        by_cases hv : compute_checksum P (serialize_header_for_hmac st.header)
            ik = st.header.checksum
        · have heq : st.unlock P r pw = st.unlockVerified P r pw ⟨ik⟩ := by
            unfold ArchiveReader.unlock
            rw [h0']
            have hvv : AttemptCounter.verify_checksum P ⟨ik⟩ st.header
                = .ok () := by
              unfold AttemptCounter.verify_checksum
              rw [if_pos hv]
            simp only [Bool.false_eq_true, if_false, hk, hik, hvv]
          rw [heq] at hok ⊢
          have hfr := unlockVerified_success_frame P r st pw ⟨ik⟩ hok
          refine ⟨hfr.1, hfr.2.1, hfr.2.2, ?_⟩
          show (st.unlockVerified P r pw ⟨ik⟩).2.header.attempt_counter
            = st.header.attempt_counter
          rw [hfr.1]
        · have heq : st.unlock P r pw = st.commitFailedAttempt P r ⟨ik⟩ := by
            unfold ArchiveReader.unlock
            rw [h0']
            have hvv : AttemptCounter.verify_checksum P ⟨ik⟩ st.header
                = .error .CounterTamperingDetected := by
              unfold AttemptCounter.verify_checksum
              rw [if_neg hv]
            simp only [Bool.false_eq_true, if_false, hk, hik, hvv]
          rw [heq] at hok
          exact absurd hok (commitFailedAttempt_not_ok P r st ⟨ik⟩)

/-- C8 witness fixture: an archive state that unlocks successfully under
the concrete primitives. -/
def stU : ArchiveReader :=
  { fileBytes := u64le 44 ++ (List.replicate 12 0 ++
      serializeDirectory CentralDirectory.new ++ List.replicate 16 0),
    header := headerLiveX,
    key_slots := [⟨List.replicate 12 0 ++ List.replicate 32 1 ++
      List.replicate 16 0, 0, true⟩],
    directory := CentralDirectory.new, master_key := none,
    encryption_algorithm := .Aes256Gcm, compression_algorithm := .Lzma2,
    directory_offset := 0, payload_offset := 0 }

theorem unlock_success_frame_witness :
    (stU.unlock idPrims rngZero [112]).2.header = stU.header ∧
    (stU.unlock idPrims rngZero [112]).2.fileBytes = stU.fileBytes ∧
    (stU.unlock idPrims rngZero [112]).2.key_slots = stU.key_slots ∧
    (stU.unlock idPrims rngZero [112]).2.get_info.current_attempts
      = stU.get_info.current_attempts :=
  unlock_success_frame idPrims rngZero stU [112] (by decide)

/-! ## C4: `extract_file` error kinds and frame -/

theorem read_exact_error_kind (f : Bytes) (off n : Nat) (e : SecureArcError)
    (h : read_exact f off n = .error e) :
    e = .IoError "failed to fill whole buffer" := by
  unfold read_exact at h
  split at h
  · exact absurd h (by simp)
  · injection h with h1
    exact h1.symm

/-- C4 amended: `extract_file` never changes the reader state — header,
attempt counter, key slots, or on-disk bytes — and an AEAD failure on the
payload surfaces as `EncryptionError` (not `IntegrityCheckFailed`, which
the source reserves for other call sites), a decompression failure as
`CompressionError`; the only other failures are the not-unlocked guard
(`InvalidConfiguration`), a missing entry (`FileNotFound`), a short read
(`IoError`), or a malformed master key (`InvalidConfiguration`). -/
theorem extract_file_spec (P : Prims) (st : ArchiveReader) (p : Bytes) :
    (st.extract_file P p).2 = st ∧
    (∀ e, (st.extract_file P p).1 = .error e →
      (∃ s, e = SecureArcError.EncryptionError s) ∨
      (∃ s, e = SecureArcError.CompressionError s) ∨
      (∃ q, e = SecureArcError.FileNotFound q) ∨
      (∃ s, e = SecureArcError.InvalidConfiguration s) ∨
      (∃ s, e = SecureArcError.IoError s)) := by
  constructor
  · unfold ArchiveReader.extract_file
    split
    · rfl
    · split
      · rfl
      · split
        · rfl
        · split
          · rfl
          · split
            · rfl
            · split
              · rfl
              · rfl
  · intro e herr
    unfold ArchiveReader.extract_file at herr
    split at herr
    · simp only [Except.error.injEq] at herr
      exact Or.inr (Or.inr (Or.inr (Or.inl ⟨_, herr.symm⟩)))
    · split at herr
      · simp only [Except.error.injEq] at herr
        exact Or.inr (Or.inr (Or.inl ⟨_, herr.symm⟩))
      · split at herr
        next e1 hre =>
          simp only [Except.error.injEq] at herr
          exact Or.inr (Or.inr (Or.inr (Or.inr
            ⟨_, herr.symm.trans (read_exact_error_kind _ _ _ _ hre)⟩)))
        next enc hre =>
        split at herr
        next e1 hfb =>
          simp only [Except.error.injEq] at herr
          unfold EncryptionKey.from_bytes at hfb
          split at hfb
          · exact absurd hfb (by simp)
          · injection hfb with h1
            exact Or.inr (Or.inr (Or.inr (Or.inl ⟨_, herr.symm.trans h1.symm⟩)))
        next ek hfb =>
        split at herr
        next e1 hde =>
          simp only [Except.error.injEq] at herr
          obtain ⟨s, hs⟩ := decrypt_data_error_kind P _ _ _ _ hde
          exact Or.inl ⟨s, herr.symm.trans hs⟩
        next cd hde =>
        split at herr
        next e1 hdc =>
          simp only [Except.error.injEq] at herr
          obtain ⟨s, hs⟩ := decompress_data_error_kind P _ _ _ hdc
          exact Or.inr (Or.inl ⟨s, herr.symm.trans hs⟩)
        next fd hdc =>
          exact absurd herr (by simp)

/-- Primitives whose AEAD rejects every ciphertext. -/
def failPrims : Prims :=
  { idPrims with aeadOpen := fun _ _ _ _ => none }

/-- C4 counterexample fixture: unlocked reader over a 28-byte payload. -/
def stF : ArchiveReader :=
  { fileBytes := List.replicate 28 0, header := headerLiveX,
    key_slots := [],
    directory := ⟨[⟨[97], 0, 0, 28, 0, 0, 0⟩], []⟩,
    master_key := some (List.replicate 32 0),
    encryption_algorithm := .Aes256Gcm, compression_algorithm := .Lzma2,
    directory_offset := 0, payload_offset := 0 }

/-- C4 counterexample: an AEAD tag failure during `extract_file` surfaces
as `EncryptionError "Decryption failed"`, which is not
`IntegrityCheckFailed` for any detail string. -/
theorem extract_file_error_kind_counterexample :
    (stF.extract_file failPrims [97]).1
      = .error (.EncryptionError "Decryption failed") ∧
    ∀ s, SecureArcError.EncryptionError "Decryption failed"
      ≠ SecureArcError.IntegrityCheckFailed s := by
  constructor
  · decide
  · intro s h
    exact SecureArcError.noConfusion h

theorem extract_file_spec_witness :
    (stF.extract_file failPrims [97]).2 = stF ∧
    ((∃ s, SecureArcError.EncryptionError "Decryption failed"
        = SecureArcError.EncryptionError s) ∨
      (∃ s, SecureArcError.EncryptionError "Decryption failed"
        = SecureArcError.CompressionError s) ∨
      (∃ q, SecureArcError.EncryptionError "Decryption failed"
        = SecureArcError.FileNotFound q) ∨
      (∃ s, SecureArcError.EncryptionError "Decryption failed"
        = SecureArcError.InvalidConfiguration s) ∨
      (∃ s, SecureArcError.EncryptionError "Decryption failed"
        = SecureArcError.IoError s)) :=
  ⟨(extract_file_spec failPrims stF [97]).1,
   (extract_file_spec failPrims stF [97]).2
     (.EncryptionError "Decryption failed") (by decide)⟩

/-! ## C3: create → open → unlock → extract roundtrip -/

/-- The ciphertext `add_file` appends for an input file. -/
def ctOf (P : Prims) (cfg : ArchiveConfig) (mk : Bytes) (f : InputFile) :
    Bytes :=
  encrypt_data P
    ((compress_data P f.content cfg.compression_algorithm).toOption.getD [])
    mk cfg.encryption_algorithm

/-- The `FileEntry` recorded by `add_file` at payload offset `off`. -/
def entryOf (P : Prims) (cfg : ArchiveConfig) (mk : Bytes) (off : Nat)
    (f : InputFile) : FileEntry :=
  { path := f.archive_path, original_size := f.content.length,
    compressed_size := ((compress_data P f.content
      cfg.compression_algorithm).toOption.getD []).length,
    encrypted_size := (ctOf P cfg mk f).length,
    modified_time := f.modified_time, attributes := 0, data_offset := off }

/-- The directory entries a sequence of `add_file` calls records, starting
at payload offset `off`. -/
def entriesOf (P : Prims) (cfg : ArchiveConfig) (mk : Bytes) :
    Nat → List InputFile → List FileEntry
  | _, [] => []
  | off, f :: fs =>
    entryOf P cfg mk off f ::
      entriesOf P cfg mk (off + (ctOf P cfg mk f).length) fs

/-- The payload a sequence of `add_file` calls accumulates. -/
def payloadOf (P : Prims) (cfg : ArchiveConfig) (mk : Bytes)
    (files : List InputFile) : Bytes :=
  (files.map (ctOf P cfg mk)).flatten

theorem add_files_spec (P : Prims) (cfg : ArchiveConfig) (mk : Bytes)
    (hmk : mk.length = 32) :
    ∀ (files : List InputFile) (w : ArchiveWriter),
    w.config = cfg → w.master_key = mk →
    (∀ f ∈ files, ∃ c,
      compress_data P f.content cfg.compression_algorithm = .ok c) →
    ∃ w', w.add_files P files = .ok w' ∧ w'.config = cfg ∧
      w'.master_key = mk ∧
      w'.payload = w.payload ++ payloadOf P cfg mk files ∧
      w'.directory.entries
        = w.directory.entries ++ entriesOf P cfg mk w.payload.length files ∧
      w'.directory.encrypted_data = w.directory.encrypted_data := by
  intro files
  induction files with
  | nil =>
    intro w hc hm _
    exact ⟨w, rfl, hc, hm, by simp [payloadOf], by simp [entriesOf], rfl⟩
  | cons f fs ih =>
    intro w hc hm hcomp
    obtain ⟨c, hc1⟩ := hcomp f (by simp)
    have hek : EncryptionKey.from_bytes w.master_key = .ok mk := by
      rw [hm]
      simp [EncryptionKey.from_bytes, hmk]
    have hct : ctOf P cfg mk f
        = encrypt_data P c mk cfg.encryption_algorithm := by
      unfold ctOf
      rw [hc1]
      rfl
    have hE : entryOf P cfg mk w.payload.length f
        = ⟨f.archive_path, f.content.length, c.length,
          (encrypt_data P c mk cfg.encryption_algorithm).length,
          f.modified_time, 0, w.payload.length⟩ := by
      unfold entryOf
      rw [hct, hc1]
      rfl
    have hstep : w.add_file P f = .ok
        { w with
            payload := w.payload ++ ctOf P cfg mk f,
            directory := w.directory.add_entry
              (entryOf P cfg mk w.payload.length f) } := by
      unfold ArchiveWriter.add_file
      rw [hc, hc1, hek, hE, hct]
    unfold ArchiveWriter.add_files
    rw [hstep]
    obtain ⟨w', hw', hc', hm', hp', he', hd'⟩ := ih
      { w with
          payload := w.payload ++ ctOf P cfg mk f,
          directory := w.directory.add_entry
            (entryOf P cfg mk w.payload.length f) }
      hc hm (fun g hg => hcomp g (by simp [hg]))
    refine ⟨w', hw', hc', hm', ?_, ?_, ?_⟩
    · rw [hp']
      show (w.payload ++ ctOf P cfg mk f) ++ payloadOf P cfg mk fs
        = w.payload ++ payloadOf P cfg mk (f :: fs)
      rw [List.append_assoc]
      unfold payloadOf
      rw [List.map_cons, List.flatten_cons]
    · rw [he']
      show (w.directory.entries ++ [entryOf P cfg mk w.payload.length f]) ++
          entriesOf P cfg mk (w.payload ++ ctOf P cfg mk f).length fs
        = w.directory.entries ++ entriesOf P cfg mk w.payload.length (f :: fs)
      rw [List.append_assoc]
      congr 1
      show [entryOf P cfg mk w.payload.length f] ++ _
        = entriesOf P cfg mk w.payload.length (f :: fs)
      rw [List.singleton_append]
      show entryOf P cfg mk w.payload.length f ::
          entriesOf P cfg mk (w.payload ++ ctOf P cfg mk f).length fs
        = entryOf P cfg mk w.payload.length f ::
          entriesOf P cfg mk (w.payload.length + (ctOf P cfg mk f).length) fs
      rw [List.length_append]
    · rw [hd']
      rfl

/-- The header `write_to_file` builds before the checksum is stored. -/
def baseHeaderOf (cfg : ArchiveConfig) (salt : Bytes) : SecurityHeader :=
  { kdf_algorithm := cfg.kdf_params.algorithm,
    kdf_memory := cfg.kdf_params.memory,
    kdf_iterations := cfg.kdf_params.iterations,
    kdf_parallelism := cfg.kdf_params.parallelism,
    encryption_algorithm := cfg.encryption_algorithm,
    compression_algorithm := cfg.compression_algorithm,
    salt := salt, attempt_counter := 0, max_attempts := cfg.max_attempts,
    checksum := List.replicate 32 0, destroyed := false }

/-- The header `write_to_file` serializes: the base header with its HMAC
stored — exactly `update_checksum` applied to the base header. -/
def finalHeaderOf (P : Prims) (cfg : ArchiveConfig) (salt ik : Bytes) :
    SecurityHeader :=
  AttemptCounter.update_checksum P ⟨ik⟩ (baseHeaderOf cfg salt)

theorem write_to_file_spec (P : Prims) (w : ArchiveWriter)
    (pw salt ek ik : Bytes)
    (hcfg : 3 ≤ w.config.max_attempts ∧ w.config.max_attempts ≤ 99)
    (hek : derive_key P pw salt w.config.kdf_params = .ok ek)
    (hek32 : ek.length = 32)
    (hik : derive_key P pw (xorFirstByte salt) w.config.kdf_params = .ok ik)
    (hik32 : ik.length = 32)
    (hmk : w.master_key.length = 32) :
    w.write_to_file P pw salt = .ok (MAGIC_NUMBER ++
      u32le (serializeHeader (finalHeaderOf P w.config salt ik)).length ++
      serializeHeader (finalHeaderOf P w.config salt ik) ++
      slotsBlockOf [⟨encrypt_data P w.master_key ek
        w.config.encryption_algorithm, 0, true⟩] ++
      u64le (encrypt_data P (serializeDirectory w.directory) w.master_key
        w.config.encryption_algorithm).length ++
      encrypt_data P (serializeDirectory w.directory) w.master_key
        w.config.encryption_algorithm ++
      u64le w.payload.length ++ w.payload) := by
  have hnew : SecurityHeader.new w.config.max_attempts salt
      = .ok { kdf_algorithm := .Argon2id, kdf_memory := 64 * 1024,
              kdf_iterations := 3, kdf_parallelism := 4,
              encryption_algorithm := .Aes256Gcm,
              compression_algorithm := .Lzma2, salt := salt,
              attempt_counter := 0, max_attempts := w.config.max_attempts,
              checksum := List.replicate 32 0, destroyed := false } := by
    unfold SecurityHeader.new
    rw [if_neg]
    unfold MIN_MAX_ATTEMPTS MAX_MAX_ATTEMPTS
    omega
  have hik' : IntegrityKey.from_bytes ik = .ok ik := by
    simp [IntegrityKey.from_bytes, hik32]
  have hek' : EncryptionKey.from_bytes ek = .ok ek := by
    simp [EncryptionKey.from_bytes, hek32]
  have hmk' : EncryptionKey.from_bytes w.master_key = .ok w.master_key := by
    simp [EncryptionKey.from_bytes, hmk]
  unfold ArchiveWriter.write_to_file
  rw [hnew]
  simp only [hek, hik, hik', hek', hmk']
  rfl

theorem read_exact_at (pre x post : Bytes) (n : Nat) (hn : n = x.length) :
    read_exact (pre ++ (x ++ post)) pre.length n = .ok x := by
  subst hn
  unfold read_exact
  have hle : pre.length + x.length ≤ (pre ++ (x ++ post)).length := by
    simp only [List.length_append]
    omega
  rw [if_pos hle, List.drop_left, List.take_left]

theorem read_exact_at' (f pre x post : Bytes) (off n : Nat)
    (hf : f = pre ++ (x ++ post)) (hoff : off = pre.length)
    (hn : n = x.length) :
    read_exact f off n = .ok x := by
  subst hf hoff
  exact read_exact_at pre x post n hn

theorem openArchive_writer_file (hdr : SecurityHeader) (s : KeySlot)
    (dct pl : Bytes)
    (hw : hdr.WF) (hval : hdr.validate = .ok ())
    (hnd : SelfDestruct.is_destroyed hdr = false)
    (hswf : s.WF) (hsd32 : (serializeKeySlot s).length < 2 ^ 32)
    (hdct : dct.length < 2 ^ 64) :
    openArchive (MAGIC_NUMBER ++ u32le (serializeHeader hdr).length ++
        serializeHeader hdr ++ slotsBlockOf [s] ++ u64le dct.length ++ dct ++
        u64le pl.length ++ pl)
      = .ok { fileBytes := MAGIC_NUMBER ++
                u32le (serializeHeader hdr).length ++ serializeHeader hdr ++
                slotsBlockOf [s] ++ u64le dct.length ++ dct ++
                u64le pl.length ++ pl,
              header := hdr, key_slots := [s],
              directory := CentralDirectory.new, master_key := none,
              encryption_algorithm := hdr.encryption_algorithm,
              compression_algorithm := hdr.compression_algorithm,
              directory_offset := 8 + (4 + 97) + 4 + 4 +
                (serializeKeySlot s).length,
              payload_offset := 8 + (4 + 97) + 4 + 4 +
                (serializeKeySlot s).length + 8 + dct.length + 8 } := by
  have h97 : (serializeHeader hdr).length = 97 :=
    serializeHeader_length hdr hw.1 hw.2.1
  have hM : MAGIC_NUMBER.length = 8 := rfl
  have hslots : slotsBlockOf [s]
      = u32le 1 ++ (u32le (serializeKeySlot s).length ++ serializeKeySlot s) := by
    simp [slotsBlockOf]
  set hd := serializeHeader hdr with hhd
  set sd := serializeKeySlot s with hsd
  set fb := MAGIC_NUMBER ++ u32le hd.length ++ hd ++ slotsBlockOf [s] ++
    u64le dct.length ++ dct ++ u64le pl.length ++ pl with hfb
  have hfbr : fb = MAGIC_NUMBER ++ (u32le hd.length ++ (hd ++ (u32le 1 ++
      (u32le sd.length ++ (sd ++ (u64le dct.length ++ (dct ++
      (u64le pl.length ++ pl)))))))) := by
    rw [hfb, hslots]
    simp [List.append_assoc]
  have r1 : read_exact fb 0 8 = .ok MAGIC_NUMBER :=
    read_exact_at' fb [] MAGIC_NUMBER
      (u32le hd.length ++ (hd ++ (u32le 1 ++ (u32le sd.length ++ (sd ++
        (u64le dct.length ++ (dct ++ (u64le pl.length ++ pl)))))))) 0 8
      (by rw [hfbr]; rfl) rfl rfl
  have r2 : read_exact fb 8 4 = .ok (u32le hd.length) :=
    read_exact_at' fb MAGIC_NUMBER (u32le hd.length)
      (hd ++ (u32le 1 ++ (u32le sd.length ++ (sd ++
        (u64le dct.length ++ (dct ++ (u64le pl.length ++ pl))))))) 8 4
      (by rw [hfbr]) rfl rfl
  have r3 : read_exact fb 12 97 = .ok hd :=
    read_exact_at' fb (MAGIC_NUMBER ++ u32le hd.length) hd
      (u32le 1 ++ (u32le sd.length ++ (sd ++
        (u64le dct.length ++ (dct ++ (u64le pl.length ++ pl)))))) 12 97
      (by rw [hfbr]; simp [List.append_assoc])
      (by simp only [List.length_append, hM, u32le_length])
      (by rw [h97])
  have r4 : read_exact fb (8 + (4 + 97)) 4 = .ok (u32le 1) :=
    read_exact_at' fb (MAGIC_NUMBER ++ u32le hd.length ++ hd) (u32le 1)
      (u32le sd.length ++ (sd ++
        (u64le dct.length ++ (dct ++ (u64le pl.length ++ pl)))))
      (8 + (4 + 97)) 4
      (by rw [hfbr]; simp [List.append_assoc])
      (by simp only [List.length_append, hM, u32le_length, h97]) rfl
  have r5 : read_exact fb (8 + (4 + 97) + 4) 4 = .ok (u32le sd.length) :=
    read_exact_at' fb
      (MAGIC_NUMBER ++ u32le hd.length ++ hd ++ u32le 1) (u32le sd.length)
      (sd ++ (u64le dct.length ++ (dct ++ (u64le pl.length ++ pl))))
      (8 + (4 + 97) + 4) 4
      (by rw [hfbr]; simp [List.append_assoc])
      (by simp only [List.length_append, hM, u32le_length, h97]) rfl
  have r6 : read_exact fb (8 + (4 + 97) + 4 + 4) sd.length = .ok sd :=
    read_exact_at' fb
      (MAGIC_NUMBER ++ u32le hd.length ++ hd ++ u32le 1 ++ u32le sd.length)
      sd (u64le dct.length ++ (dct ++ (u64le pl.length ++ pl)))
      (8 + (4 + 97) + 4 + 4) sd.length
      (by rw [hfbr]; simp [List.append_assoc])
      (by simp only [List.length_append, hM, u32le_length, h97]) rfl
  have r7 : read_exact fb (8 + (4 + 97) + 4 + 4 + sd.length) 8
      = .ok (u64le dct.length) :=
    read_exact_at' fb
      (MAGIC_NUMBER ++ u32le hd.length ++ hd ++ u32le 1 ++
        u32le sd.length ++ sd) (u64le dct.length)
      (dct ++ (u64le pl.length ++ pl))
      (8 + (4 + 97) + 4 + 4 + sd.length) 8
      (by rw [hfbr]; simp [List.append_assoc])
      (by simp only [List.length_append, hM, u32le_length, h97]) rfl
  have r8 : read_exact fb (8 + (4 + 97) + 4 + 4 + sd.length + 8) dct.length
      = .ok dct :=
    read_exact_at' fb
      (MAGIC_NUMBER ++ u32le hd.length ++ hd ++ u32le 1 ++
        u32le sd.length ++ sd ++ u64le dct.length) dct
      (u64le pl.length ++ pl)
      (8 + (4 + 97) + 4 + 4 + sd.length + 8) dct.length
      (by rw [hfbr]; simp [List.append_assoc])
      (by simp only [List.length_append, hM, u32le_length, u64le_length, h97]) rfl
  have hlev97 : leVal (u32le hd.length) = 97 := by
    rw [leVal_u32le, h97]
    norm_num
  have hlev1 : leVal (u32le 1) = 1 := by
    rw [leVal_u32le]
    norm_num
  have hlevsd : leVal (u32le sd.length) = sd.length := by
    rw [leVal_u32le]
    omega
  have hlevdct : leVal (u64le dct.length) = dct.length := by
    rw [leVal_u64le]
    omega
  have hparse : parseHeader hd = some (hdr, []) := by
    have := parseHeader_rt hdr hw []
    rwa [List.append_nil] at this
  have hkparse : parseKeySlot sd = some (s, []) := by
    have := parseKeySlot_rt s hswf []
    rwa [List.append_nil] at this
  unfold openArchive
  rw [r1]
  simp only [ne_eq, not_true_eq_false, if_false, ite_false, if_neg,
    not_false_eq_true]
  rw [r2]
  simp only [hlev97]
  rw [r3]
  simp only [hparse, hval, hnd, Bool.false_eq_true, if_false]
  rw [r4]
  simp only [hlev1]
  unfold readKeySlots
  rw [r5]
  simp only [hlevsd]
  rw [r6]
  simp only [hkparse]
  unfold readKeySlots
  simp only []
  rw [r7]
  simp only [hlevdct]
  rw [r8]

theorem unlock_writer_reader (P : Prims) (r : DestructRandomness)
    (cfg : ArchiveConfig) (salt ik ek mk pw : Bytes)
    (dir : CentralDirectory) (fbt : Bytes) (doff poff : Nat)
    (hik : derive_key P pw (xorFirstByte salt) cfg.kdf_params = .ok ik)
    (hik32 : ik.length = 32)
    (hek : derive_key P pw salt cfg.kdf_params = .ok ek)
    (hek32 : ek.length = 32)
    (hmk : mk.length = 32)
    (hmax : 3 ≤ cfg.max_attempts)
    (Hdec : ∀ pt k a, decrypt_data P (encrypt_data P pt k a) k a = .ok pt)
    (hdirwf : dir.WF)
    (hread1 : read_exact fbt doff 8
      = .ok (u64le (encrypt_data P (serializeDirectory dir) mk
          cfg.encryption_algorithm).length))
    (hread2 : read_exact fbt (doff + 8)
        (encrypt_data P (serializeDirectory dir) mk
          cfg.encryption_algorithm).length
      = .ok (encrypt_data P (serializeDirectory dir) mk
          cfg.encryption_algorithm))
    (hdct64 : (encrypt_data P (serializeDirectory dir) mk
        cfg.encryption_algorithm).length < 2 ^ 64) :
    ArchiveReader.unlock P r
      { fileBytes := fbt, header := finalHeaderOf P cfg salt ik,
        key_slots := [⟨encrypt_data P mk ek cfg.encryption_algorithm, 0,
          true⟩],
        directory := CentralDirectory.new, master_key := none,
        encryption_algorithm := cfg.encryption_algorithm,
        compression_algorithm := cfg.compression_algorithm,
        directory_offset := doff, payload_offset := poff } pw
      = (.ok (),
        { fileBytes := fbt, header := finalHeaderOf P cfg salt ik,
          key_slots := [⟨encrypt_data P mk ek cfg.encryption_algorithm, 0,
            true⟩],
          directory := dir, master_key := some mk,
          encryption_algorithm := cfg.encryption_algorithm,
          compression_algorithm := cfg.compression_algorithm,
          directory_offset := doff, payload_offset := poff }) := by
  set st : ArchiveReader :=
    { fileBytes := fbt, header := finalHeaderOf P cfg salt ik,
      key_slots := [⟨encrypt_data P mk ek cfg.encryption_algorithm, 0,
        true⟩],
      directory := CentralDirectory.new, master_key := none,
      encryption_algorithm := cfg.encryption_algorithm,
      compression_algorithm := cfg.compression_algorithm,
      directory_offset := doff, payload_offset := poff } with hst
  have hnd : SelfDestruct.is_destroyed st.header = false := by
    show SelfDestruct.is_destroyed (finalHeaderOf P cfg salt ik) = false
    unfold SelfDestruct.is_destroyed SecurityHeader.should_destroy
      finalHeaderOf AttemptCounter.update_checksum baseHeaderOf
    simp only [Bool.or_false, Bool.false_or, decide_eq_false_iff_not, not_le]
    omega
  have hkdf1 : derive_key P pw (xorFirstByte st.header.salt)
      (kdfParamsOfHeader st.header) = .ok ik := hik
  have hver : compute_checksum P (serialize_header_for_hmac st.header) ik
      = st.header.checksum := rfl
  rw [unlock_eq_verified P r st pw ik hnd hkdf1 hik32 hver]
  have hek' : derive_key P pw st.header.salt (kdfParamsOfHeader st.header)
      = .ok ek := hek
  have hekb : EncryptionKey.from_bytes ek = .ok ek := by
    simp [EncryptionKey.from_bytes, hek32]
  have hdec1 : decrypt_data P st.key_slots.headI.encrypted_key ek
      st.encryption_algorithm = .ok mk := by
    show decrypt_data P (encrypt_data P mk ek cfg.encryption_algorithm) ek
      cfg.encryption_algorithm = .ok mk
    exact Hdec mk ek cfg.encryption_algorithm
  unfold ArchiveReader.unlockVerified
  rw [hek']
  simp only [hekb, hdec1]
  rw [if_neg (by simp [hmk])]
  have hmkb : EncryptionKey.from_bytes mk = .ok mk := by
    simp [EncryptionKey.from_bytes, hmk]
  have hlevd : leVal (u64le (encrypt_data P (serializeDirectory dir) mk
      cfg.encryption_algorithm).length)
      = (encrypt_data P (serializeDirectory dir) mk
          cfg.encryption_algorithm).length := by
    rw [leVal_u64le]
    omega
  have hdec2 : decrypt_data P (encrypt_data P (serializeDirectory dir) mk
      cfg.encryption_algorithm) mk cfg.encryption_algorithm
      = .ok (serializeDirectory dir) := Hdec _ _ _
  have hpd : parseDirectory (serializeDirectory dir) = some (dir, []) := by
    have := parseDirectory_rt dir hdirwf []
    rwa [List.append_nil] at this
  unfold ArchiveReader.unlockDirectory
  simp only [hmkb, hread1, hlevd, hread2, hdec2, hpd]

theorem entriesOf_length (P : Prims) (cfg : ArchiveConfig) (mk : Bytes) :
    ∀ (files : List InputFile) (off : Nat),
      (entriesOf P cfg mk off files).length = files.length := by
  intro files
  induction files with
  | nil => intro off; rfl
  | cons f fs ih =>
    intro off
    unfold entriesOf
    simp [ih]

theorem payloadOf_length_le (P : Prims) (cfg : ArchiveConfig) (mk : Bytes) :
    ∀ files : List InputFile,
      (∀ f ∈ files, (ctOf P cfg mk f).length ≤ 2 ^ 32) →
      (payloadOf P cfg mk files).length ≤ files.length * 2 ^ 32 := by
  intro files
  induction files with
  | nil => intro _; simp [payloadOf]
  | cons f fs ih =>
    intro hct
    unfold payloadOf
    rw [List.map_cons, List.flatten_cons, List.length_append]
    have h1 := hct f (by simp)
    have h2 : ((fs.map (ctOf P cfg mk)).flatten).length
        ≤ fs.length * 2 ^ 32 := ih (fun g hg => hct g (by simp [hg]))
    rw [List.length_cons]
    calc (ctOf P cfg mk f).length + ((fs.map (ctOf P cfg mk)).flatten).length
        ≤ 2 ^ 32 + fs.length * 2 ^ 32 := by omega
      _ = (fs.length + 1) * 2 ^ 32 := by ring

theorem entriesOf_offset_le (P : Prims) (cfg : ArchiveConfig) (mk : Bytes) :
    ∀ (files : List InputFile) (off : Nat),
      ∀ e ∈ entriesOf P cfg mk off files,
        e.data_offset ≤ off + (payloadOf P cfg mk files).length := by
  intro files
  induction files with
  | nil => intro off e he; exact absurd he (by simp [entriesOf])
  | cons f fs ih =>
    intro off e he
    unfold entriesOf at he
    rcases List.mem_cons.mp he with h | h
    · rw [h]
      show off ≤ off + (payloadOf P cfg mk (f :: fs)).length
      omega
    · have := ih (off + (ctOf P cfg mk f).length) e h
      have hpl : (payloadOf P cfg mk (f :: fs)).length
          = (ctOf P cfg mk f).length + (payloadOf P cfg mk fs).length := by
        unfold payloadOf
        rw [List.map_cons, List.flatten_cons, List.length_append]
      omega

theorem entriesOf_mem (P : Prims) (cfg : ArchiveConfig) (mk : Bytes) :
    ∀ (files : List InputFile) (off : Nat),
      ∀ e ∈ entriesOf P cfg mk off files,
        ∃ f ∈ files, ∃ off2, e = entryOf P cfg mk off2 f := by
  intro files
  induction files with
  | nil => intro off e he; exact absurd he (by simp [entriesOf])
  | cons f fs ih =>
    intro off e he
    unfold entriesOf at he
    rcases List.mem_cons.mp he with h | h
    · exact ⟨f, by simp, off, h⟩
    · obtain ⟨g, hg, off2, hoff2⟩ := ih _ _ h
      exact ⟨g, by simp [hg], off2, hoff2⟩

theorem entriesOf_WF (P : Prims) (cfg : ArchiveConfig) (mk : Bytes)
    (files : List InputFile)
    (hfiles : ∀ f ∈ files, f.content.length < 2 ^ 64 ∧
      f.modified_time < 2 ^ 64 ∧ f.archive_path.length < 2 ^ 64)
    (hcomp64 : ∀ f ∈ files, ((compress_data P f.content
      cfg.compression_algorithm).toOption.getD []).length < 2 ^ 64)
    (hct64 : ∀ f ∈ files, (ctOf P cfg mk f).length < 2 ^ 64)
    (hoff64 : ∀ e ∈ entriesOf P cfg mk 0 files, e.data_offset < 2 ^ 64) :
    ∀ e ∈ entriesOf P cfg mk 0 files, e.WF := by
  intro e he
  obtain ⟨f, hf, off2, rfl⟩ := entriesOf_mem P cfg mk files 0 e he
  obtain ⟨h1, h2, h3⟩ := hfiles f hf
  refine ⟨h3, h1, hcomp64 f hf, hct64 f hf, h2, ?_, ?_⟩
  · show (0 : Nat) < 2 ^ 32
    norm_num
  · exact hoff64 _ he

theorem entriesOf_find_slice (P : Prims) (cfg : ArchiveConfig) (mk : Bytes)
    (f : InputFile) :
    ∀ (files : List InputFile) (off : Nat), f ∈ files →
    (files.map (fun x => x.archive_path)).Nodup →
    ∃ pre suf : Bytes,
      (entriesOf P cfg mk off files).find?
          (fun en => en.path == f.archive_path)
        = some (entryOf P cfg mk (off + pre.length) f) ∧
      payloadOf P cfg mk files = pre ++ (ctOf P cfg mk f ++ suf) := by
  intro files
  induction files with
  | nil => intro off h; exact absurd h (by simp)
  | cons g gs ih =>
    intro off hf hnd
    rcases List.mem_cons.mp hf with heq | hmem
    · subst heq
      refine ⟨[], payloadOf P cfg mk gs, ?_, ?_⟩
      · unfold entriesOf
        rw [List.find?_cons_of_pos _ (by simp [entryOf])]
        simp
      · unfold payloadOf
        simp
    · have hgne : g.archive_path ≠ f.archive_path := by
        intro hcon
        have hmm : f.archive_path ∈ gs.map (fun x => x.archive_path) :=
          List.mem_map_of_mem _ hmem
        rw [← hcon] at hmm
        exact (List.nodup_cons.mp hnd).1 hmm
      obtain ⟨pre, suf, h1, h2⟩ := ih (off + (ctOf P cfg mk g).length) hmem
        (List.nodup_cons.mp hnd).2
      refine ⟨ctOf P cfg mk g ++ pre, suf, ?_, ?_⟩
      · unfold entriesOf
        rw [List.find?_cons_of_neg _ (by simp [entryOf, hgne]), h1]
        have harith : off + (ctOf P cfg mk g).length + pre.length
            = off + (ctOf P cfg mk g ++ pre).length := by
          rw [List.length_append]
          omega
        rw [harith]
      · unfold payloadOf
        rw [List.map_cons, List.flatten_cons,
          show (gs.map (ctOf P cfg mk)).flatten = payloadOf P cfg mk gs
            from rfl, h2]
        simp [List.append_assoc]

theorem finalHeaderOf_WF (P : Prims) (cfg : ArchiveConfig) (salt ik : Bytes)
    (hsalt : salt.length = 32)
    (Hmac32 : ∀ k d, (P.hmacSha256 k d).length = 32)
    (hkdfp : cfg.kdf_params.memory < 2 ^ 32 ∧
      cfg.kdf_params.iterations < 2 ^ 32 ∧
      cfg.kdf_params.parallelism < 2 ^ 32)
    (hmax : cfg.max_attempts ≤ 99) :
    (finalHeaderOf P cfg salt ik).WF := by
  refine ⟨?_, ?_, ?_, ?_, ?_, ?_, ?_⟩
  · show salt.length = 32
    exact hsalt
  · show (P.hmacSha256 _ _).length = 32
    exact Hmac32 _ _
  · exact hkdfp.1
  · exact hkdfp.2.1
  · exact hkdfp.2.2
  · show (0 : Nat) < 2 ^ 32
    norm_num
  · show cfg.max_attempts < 2 ^ 32
    omega

theorem finalHeaderOf_validate (P : Prims) (cfg : ArchiveConfig)
    (salt ik : Bytes) (hmin : 3 ≤ cfg.max_attempts)
    (hmax : cfg.max_attempts ≤ 99) :
    (finalHeaderOf P cfg salt ik).validate = .ok () := by
  have h1 : ¬((finalHeaderOf P cfg salt ik).max_attempts < MIN_MAX_ATTEMPTS ∨
      MAX_MAX_ATTEMPTS < (finalHeaderOf P cfg salt ik).max_attempts) := by
    show ¬(cfg.max_attempts < MIN_MAX_ATTEMPTS ∨
      MAX_MAX_ATTEMPTS < cfg.max_attempts)
    unfold MIN_MAX_ATTEMPTS MAX_MAX_ATTEMPTS
    omega
  have h2 : ¬((finalHeaderOf P cfg salt ik).max_attempts
      < (finalHeaderOf P cfg salt ik).attempt_counter) := by
    show ¬(cfg.max_attempts < 0)
    omega
  have h3 : ¬((finalHeaderOf P cfg salt ik).destroyed = true) := by
    show ¬(false = true)
    simp
  unfold SecurityHeader.validate
  rw [if_neg h1, if_neg h2, if_neg h3]

theorem finalHeaderOf_not_destroyed (P : Prims) (cfg : ArchiveConfig)
    (salt ik : Bytes) (hmin : 3 ≤ cfg.max_attempts) :
    SelfDestruct.is_destroyed (finalHeaderOf P cfg salt ik) = false := by
  unfold SelfDestruct.is_destroyed SecurityHeader.should_destroy
    finalHeaderOf AttemptCounter.update_checksum baseHeaderOf
  simp only [Bool.or_false, Bool.false_or, decide_eq_false_iff_not, not_le]
  omega

/-- Success path of `extract_file`: with a master key present, the entry
found, the payload read, decryption and decompression all succeeding, the
file's bytes come back and the reader is unchanged. -/
theorem extract_file_success (P : Prims) (st : ArchiveReader) (p : Bytes)
    (mk : Bytes) (entry : FileEntry) (ct c d : Bytes)
    (hmku : st.master_key = some mk)
    (hfind : st.directory.find_entry p = some entry)
    (hread : read_exact st.fileBytes (st.payload_offset + entry.data_offset)
      entry.encrypted_size = .ok ct)
    (hmk32 : mk.length = 32)
    (hdec : decrypt_data P ct mk st.encryption_algorithm = .ok c)
    (hdc : decompress_data P c st.compression_algorithm = .ok d) :
    st.extract_file P p = (.ok d, st) := by
  have hfb : EncryptionKey.from_bytes mk = .ok mk := by
    simp [EncryptionKey.from_bytes, hmk32]
  unfold ArchiveReader.extract_file
  rw [hmku]
  simp only [hfind, hread, hfb, hdec, hdc]

/-- The three reads `unlock` and `extract_file` perform on a file of the
shape `write_to_file` produces: the directory length, the directory
ciphertext, and any payload slice. -/
theorem writer_file_reads (hd dct pl : Bytes) (S : KeySlot)
    (hhd : hd.length = 97) :
    read_exact (MAGIC_NUMBER ++ u32le hd.length ++ hd ++ slotsBlockOf [S] ++
        u64le dct.length ++ dct ++ u64le pl.length ++ pl)
      (8 + (4 + 97) + 4 + 4 + (serializeKeySlot S).length) 8
      = .ok (u64le dct.length) ∧
    read_exact (MAGIC_NUMBER ++ u32le hd.length ++ hd ++ slotsBlockOf [S] ++
        u64le dct.length ++ dct ++ u64le pl.length ++ pl)
      (8 + (4 + 97) + 4 + 4 + (serializeKeySlot S).length + 8) dct.length
      = .ok dct ∧
    ∀ pre x suf : Bytes, pl = pre ++ (x ++ suf) →
      read_exact (MAGIC_NUMBER ++ u32le hd.length ++ hd ++ slotsBlockOf [S] ++
          u64le dct.length ++ dct ++ u64le pl.length ++ pl)
        (8 + (4 + 97) + 4 + 4 + (serializeKeySlot S).length + 8 + dct.length
          + 8 + (0 + pre.length)) x.length
        = .ok x := by
  have hM : MAGIC_NUMBER.length = 8 := rfl
  have hslots : slotsBlockOf [S]
      = u32le 1 ++ (u32le (serializeKeySlot S).length ++ serializeKeySlot S) := by
    simp [slotsBlockOf]
  refine ⟨?_, ?_, ?_⟩
  · exact read_exact_at' _
      (MAGIC_NUMBER ++ u32le hd.length ++ hd ++ slotsBlockOf [S])
      (u64le dct.length) (dct ++ (u64le pl.length ++ pl)) _ _
      (by simp [List.append_assoc])
      (by simp only [List.length_append, hM, u32le_length, hhd, hslots]
          omega)
      (u64le_length _).symm
  · exact read_exact_at' _
      (MAGIC_NUMBER ++ u32le hd.length ++ hd ++ slotsBlockOf [S] ++
        u64le dct.length) dct (u64le pl.length ++ pl) _ _
      (by simp [List.append_assoc])
      (by simp only [List.length_append, hM, u32le_length, u64le_length, hhd,
            hslots]
          omega)
      rfl
  · intro pre x suf hpl
    refine read_exact_at' _
      (MAGIC_NUMBER ++ u32le hd.length ++ hd ++ slotsBlockOf [S] ++
        u64le dct.length ++ dct ++ u64le pl.length ++ pre) x suf _ _
      ?_ ?_ rfl
    · rw [hpl]
      simp [List.append_assoc]
    · simp only [List.length_append, hM, u32le_length, u64le_length, hhd,
        hslots]
      omega

/-- Extracting a file from an unlocked reader whose directory is the one
the writer recorded and whose payload reads succeed reproduces the file's
original bytes. -/
theorem extract_file_roundtrip (P : Prims) (st : ArchiveReader)
    (cfg : ArchiveConfig) (mk : Bytes) (files : List InputFile) (f : InputFile)
    (c : Bytes)
    (hmku : st.master_key = some mk) (hmk32 : mk.length = 32)
    (hdir : st.directory = ⟨entriesOf P cfg mk 0 files, []⟩)
    (henc : st.encryption_algorithm = cfg.encryption_algorithm)
    (hcmp : st.compression_algorithm = cfg.compression_algorithm)
    (hf : f ∈ files)
    (hpaths : (files.map (fun x => x.archive_path)).Nodup)
    (hdec : decrypt_data P (ctOf P cfg mk f) mk cfg.encryption_algorithm
      = .ok c)
    (hdc : decompress_data P c cfg.compression_algorithm = .ok f.content)
    (hreads : ∀ pre x suf : Bytes,
      payloadOf P cfg mk files = pre ++ (x ++ suf) →
      read_exact st.fileBytes (st.payload_offset + (0 + pre.length)) x.length
        = .ok x) :
    (st.extract_file P f.archive_path).1 = .ok f.content := by
  obtain ⟨pre, suf, hfind, hsplit⟩ :=
    entriesOf_find_slice P cfg mk f files 0 hf hpaths
  have hread := hreads pre (ctOf P cfg mk f) suf hsplit
  have hx := extract_file_success P st f.archive_path mk
    (entryOf P cfg mk (0 + pre.length) f) (ctOf P cfg mk f) c f.content
    hmku (by rw [hdir]; exact hfind) hread hmk32
    (by rw [henc]; exact hdec) (by rw [hcmp]; exact hdc)
  rw [hx]

/-- C3: for every list of input files, every password and every algorithm
selection in the configuration, the sequence `ArchiveWriter.new`,
`add_files`, `write_to_file`, then `openArchive`, `unlock` with the same
password and `extract_file` for each archive path reproduces every input
file's bytes exactly.  The abstract AEAD, KDF, HMAC and codec backends are
constrained only by the stated inverse laws and size bounds. -/
theorem archive_roundtrip (P : Prims) (r : DestructRandomness)
    (cfg : ArchiveConfig) (mk salt pw ek ik : Bytes)
    (files : List InputFile)
    (Hdec : ∀ pt k a, decrypt_data P (encrypt_data P pt k a) k a = .ok pt)
    (Hcodec : ∀ d a c, compress_data P d a = .ok c →
      decompress_data P c a = .ok d)
    (Hmac32 : ∀ k d, (P.hmacSha256 k d).length = 32)
    (hmk : mk.length = 32) (hsalt : salt.length = 32)
    (hcfg : 3 ≤ cfg.max_attempts ∧ cfg.max_attempts ≤ 99)
    (hkdfp : cfg.kdf_params.memory < 2 ^ 32 ∧
      cfg.kdf_params.iterations < 2 ^ 32 ∧
      cfg.kdf_params.parallelism < 2 ^ 32)
    (hek : derive_key P pw salt cfg.kdf_params = .ok ek)
    (hek32 : ek.length = 32)
    (hik : derive_key P pw (xorFirstByte salt) cfg.kdf_params = .ok ik)
    (hik32 : ik.length = 32)
    (hcomp : ∀ f ∈ files, ∃ c,
      compress_data P f.content cfg.compression_algorithm = .ok c ∧
      c.length < 2 ^ 64)
    (hfiles : ∀ f ∈ files, f.content.length < 2 ^ 64 ∧
      f.modified_time < 2 ^ 64 ∧ f.archive_path.length < 2 ^ 64)
    (hctb : ∀ f ∈ files, (ctOf P cfg mk f).length ≤ 2 ^ 32 ∧
      (ctOf P cfg mk f).length < 2 ^ 64)
    (hslot32 : (encrypt_data P mk ek cfg.encryption_algorithm).length + 10
      < 2 ^ 32)
    (hdctb : (encrypt_data P
        (serializeDirectory ⟨entriesOf P cfg mk 0 files, []⟩) mk
        cfg.encryption_algorithm).length < 2 ^ 64)
    (hflen : files.length < 2 ^ 32)
    (hpaths : (files.map (fun f => f.archive_path)).Nodup) :
    ∃ w fb rdr rdr',
      (ArchiveWriter.new cfg mk).add_files P files = .ok w ∧
      w.write_to_file P pw salt = .ok fb ∧
      openArchive fb = .ok rdr ∧
      rdr.unlock P r pw = (.ok (), rdr') ∧
      ∀ f ∈ files, (rdr'.extract_file P f.archive_path).1 = .ok f.content := by
  obtain ⟨w, hw, hcW, hmW, hpW, heW, hdW⟩ :=
    add_files_spec P cfg mk hmk files (ArchiveWriter.new cfg mk) rfl rfl
      (fun f hf => (hcomp f hf).imp (fun c hc => hc.1))
  have hpay : w.payload = payloadOf P cfg mk files := hpW.trans rfl
  have hent : w.directory.entries = entriesOf P cfg mk 0 files := heW.trans rfl
  have hdirE : w.directory
      = (⟨entriesOf P cfg mk 0 files, []⟩ : CentralDirectory) := by
    have h2 : w.directory.encrypted_data = ([] : Bytes) := hdW.trans rfl
    cases hD : w.directory with
    | mk es ed =>
      rw [hD] at hent h2
      rw [CentralDirectory.mk.injEq]
      exact ⟨hent, h2⟩
  have hwrite := write_to_file_spec P w pw salt ek ik
    (by rw [hcW]; exact hcfg)
    (by rw [hcW]; exact hek) hek32
    (by rw [hcW]; exact hik) hik32
    (by rw [hmW]; exact hmk)
  rw [hcW, hmW, hdirE, hpay] at hwrite
  -- header facts
  have hhwf : (finalHeaderOf P cfg salt ik).WF :=
    finalHeaderOf_WF P cfg salt ik hsalt Hmac32 hkdfp hcfg.2
  have hhval : (finalHeaderOf P cfg salt ik).validate = .ok () :=
    finalHeaderOf_validate P cfg salt ik hcfg.1 hcfg.2
  have hhnd : SelfDestruct.is_destroyed (finalHeaderOf P cfg salt ik)
      = false :=
    finalHeaderOf_not_destroyed P cfg salt ik hcfg.1
  -- key slot facts
  have hslotwf : (⟨encrypt_data P mk ek cfg.encryption_algorithm, 0, true⟩ :
      KeySlot).WF := by
    refine ⟨?_, ?_⟩
    · show (encrypt_data P mk ek cfg.encryption_algorithm).length < 2 ^ 64
      omega
    · show (0 : Nat) < 256
      norm_num
  have hsd32 : (serializeKeySlot ⟨encrypt_data P mk ek
      cfg.encryption_algorithm, 0, true⟩).length < 2 ^ 32 := by
    rw [serializeKeySlot_length]
    exact hslot32
  -- directory well-formedness
  have hploadle : (payloadOf P cfg mk files).length
      ≤ files.length * 2 ^ 32 :=
    payloadOf_length_le P cfg mk files (fun f hf => (hctb f hf).1)
  have hmul : files.length * 2 ^ 32 < 2 ^ 64 := by
    have h1 : files.length * 2 ^ 32 < 2 ^ 32 * 2 ^ 32 :=
      mul_lt_mul_of_pos_right hflen (by norm_num)
    calc files.length * 2 ^ 32 < 2 ^ 32 * 2 ^ 32 := h1
      _ = 2 ^ 64 := by norm_num
  have hoff64 : ∀ e ∈ entriesOf P cfg mk 0 files, e.data_offset < 2 ^ 64 := by
    intro e he
    have h1 := entriesOf_offset_le P cfg mk files 0 e he
    have h2 : (payloadOf P cfg mk files).length < 2 ^ 64 :=
      Nat.lt_of_le_of_lt hploadle hmul
    omega
  have hewf : ∀ e ∈ entriesOf P cfg mk 0 files, e.WF :=
    entriesOf_WF P cfg mk files hfiles
      (fun f hf => by
        obtain ⟨c, hc1, hc2⟩ := hcomp f hf
        rw [hc1]
        exact hc2)
      (fun f hf => (hctb f hf).2) hoff64
  have hdirwf : (⟨entriesOf P cfg mk 0 files, []⟩ : CentralDirectory).WF := by
    refine ⟨?_, ?_, ?_⟩
    · show (entriesOf P cfg mk 0 files).length < 2 ^ 64
      rw [entriesOf_length]
      omega
    · exact hewf
    · show (List.length ([] : Bytes)) < 2 ^ 64
      norm_num
  -- open the written file
  have hopen := openArchive_writer_file (finalHeaderOf P cfg salt ik)
    ⟨encrypt_data P mk ek cfg.encryption_algorithm, 0, true⟩
    (encrypt_data P (serializeDirectory ⟨entriesOf P cfg mk 0 files, []⟩) mk
      cfg.encryption_algorithm)
    (payloadOf P cfg mk files)
    hhwf hhval hhnd hslotwf hsd32 hdctb
  -- the reads unlock and extract perform on this file
  have h97 : (serializeHeader (finalHeaderOf P cfg salt ik)).length = 97 :=
    serializeHeader_length _ hhwf.1 hhwf.2.1
  obtain ⟨hr1, hr2, hr3⟩ := writer_file_reads
    (serializeHeader (finalHeaderOf P cfg salt ik))
    (encrypt_data P (serializeDirectory ⟨entriesOf P cfg mk 0 files, []⟩) mk
      cfg.encryption_algorithm)
    (payloadOf P cfg mk files)
    ⟨encrypt_data P mk ek cfg.encryption_algorithm, 0, true⟩ h97
  -- unlock
  have hunlock := unlock_writer_reader P r cfg salt ik ek mk pw
    ⟨entriesOf P cfg mk 0 files, []⟩
    (MAGIC_NUMBER ++
      u32le (serializeHeader (finalHeaderOf P cfg salt ik)).length ++
      serializeHeader (finalHeaderOf P cfg salt ik) ++
      slotsBlockOf [⟨encrypt_data P mk ek cfg.encryption_algorithm, 0,
        true⟩] ++
      u64le (encrypt_data P
        (serializeDirectory ⟨entriesOf P cfg mk 0 files, []⟩) mk
        cfg.encryption_algorithm).length ++
      encrypt_data P (serializeDirectory ⟨entriesOf P cfg mk 0 files, []⟩) mk
        cfg.encryption_algorithm ++
      u64le (payloadOf P cfg mk files).length ++ payloadOf P cfg mk files)
    (8 + (4 + 97) + 4 + 4 + (serializeKeySlot ⟨encrypt_data P mk ek
      cfg.encryption_algorithm, 0, true⟩).length)
    (8 + (4 + 97) + 4 + 4 + (serializeKeySlot ⟨encrypt_data P mk ek
      cfg.encryption_algorithm, 0, true⟩).length + 8 +
      (encrypt_data P (serializeDirectory ⟨entriesOf P cfg mk 0 files, []⟩)
        mk cfg.encryption_algorithm).length + 8)
    hik hik32 hek hek32 hmk hcfg.1 Hdec hdirwf hr1 hr2 hdctb
  refine ⟨w, _, _, _, hw, hwrite, hopen, hunlock, ?_⟩
  intro f hf
  obtain ⟨c, hc1, _⟩ := hcomp f hf
  have hct : ctOf P cfg mk f
      = encrypt_data P c mk cfg.encryption_algorithm := by
    unfold ctOf
    rw [hc1]
    rfl
  have hdecr : decrypt_data P (ctOf P cfg mk f) mk cfg.encryption_algorithm
      = .ok c := by
    rw [hct]
    exact Hdec c mk cfg.encryption_algorithm
  exact extract_file_roundtrip P _ cfg mk files f c rfl hmk rfl rfl rfl hf
    hpaths hdecr (Hcodec f.content cfg.compression_algorithm c hc1)
    (fun pre x suf hsp => hr3 pre x suf hsp)

/-- A concrete configuration for evaluation: `max_attempts` 3, default
algorithms and KDF parameters. -/
def cfgX : ArchiveConfig :=
  ⟨3, .Aes256Gcm, .Lzma2, ⟨.Argon2id, 65536, 3, 4⟩⟩

/-- C3 witness: the roundtrip is exhibited on a one-file archive with the
identity primitives, an all-zero master key and salt, and an empty
password. -/
theorem archive_roundtrip_witness :
    ∃ w fb rdr rdr',
      (ArchiveWriter.new cfgX (List.replicate 32 0)).add_files idPrims
        [⟨[7, 8], [97], 0⟩] = .ok w ∧
      w.write_to_file idPrims [] (List.replicate 32 0) = .ok fb ∧
      openArchive fb = .ok rdr ∧
      rdr.unlock idPrims rngZero [] = (.ok (), rdr') ∧
      ∀ f ∈ [(⟨[7, 8], [97], 0⟩ : InputFile)],
        (rdr'.extract_file idPrims f.archive_path).1 = .ok f.content :=
  archive_roundtrip idPrims rngZero cfgX (List.replicate 32 0)
    (List.replicate 32 0) [] (List.replicate 32 0) (List.replicate 32 0)
    [⟨[7, 8], [97], 0⟩]
    (fun pt k a => idPrims_decrypt_encrypt pt k a)
    (fun d a c h => idPrims_codec d c a h)
    (fun _ _ => rfl)
    (by decide) (by decide) (by decide) (by decide)
    (by decide) (by decide) (by decide) (by decide)
    (by
      intro f hf
      rw [List.mem_singleton] at hf
      subst hf
      exact ⟨[7, 8], by decide, by decide⟩)
    (by decide) (by decide) (by decide) (by decide) (by decide) (by decide)

end SecureArc
